import Mathlib

/-!
# welyo-recruitment: the HTTP service of `internal/server`

A shallow embedding of `internal/server/server.go` and `internal/server/handlers.go`
together with the parts of the Go standard library they call.

Conventions.
* A Go `string` is a Lean `String`; positions count characters.  Go counts bytes, but every
  index computed below is only used to cut the string it was computed from, so the two agree
  on text that is valid UTF-8.  Where Go works on the bytes themselves (percent-encoding), the
  UTF-8 bytes of the text are used.
* A Go `int` is an `Int`; no arithmetic below can overflow.
* An operation that can panic at run time (indexing, slicing, `WriteHeader` with an invalid
  code) returns an `Option`, `none` standing for the panic.
-/

namespace Go

/-- The slice expression `s[lo:hi]`; panics unless `0 ≤ lo ≤ hi ≤ len(s)`. -/
def slice (s : List Char) (lo hi : Int) : Option (List Char) :=
  if 0 ≤ lo ∧ lo ≤ hi ∧ hi ≤ (s.length : Int) then
    some ((s.take hi.toNat).drop lo.toNat)
  else none

/-- The index expression `s[i]`; panics when `i` is out of range. -/
def index (s : List Char) (i : Int) : Option Char :=
  if 0 ≤ i then s.get? i.toNat else none

/-- The builtin `len`. -/
def len (s : List Char) : Int := (s.length : Int)

/-- Position of the first `b` in `s`, or `-1` (`strings.IndexByte`). -/
def IndexByte : List Char → Char → Int
  | [], _ => -1
  | c :: cs, b =>
    if c = b then 0
    else
      let i := IndexByte cs b
      if i < 0 then -1 else i + 1

/-- Position of the last `b` in `s`, or `-1` (`strings.LastIndexByte`). -/
def LastIndexByte : List Char → Char → Int
  | [], _ => -1
  | c :: cs, b =>
    let i := LastIndexByte cs b
    if 0 ≤ i then i + 1 else if c = b then 0 else -1

namespace unicode

/-- Go's `unicode.IsSpace`: the Unicode White_Space property. -/
def IsSpace (c : Char) : Bool :=
  let n := c.toNat
  n = 0x09 || n = 0x0A || n = 0x0B || n = 0x0C || n = 0x0D || n = 0x20 ||
  n = 0x85 || n = 0xA0 || n = 0x1680 || (0x2000 ≤ n && n ≤ 0x200A) ||
  n = 0x2028 || n = 0x2029 || n = 0x202F || n = 0x205F || n = 0x3000

end unicode

namespace strings

/-- Go's `strings.Index`: position of the first occurrence of `substr` in `s`, or `-1`. -/
def IndexChars : List Char → List Char → Int
  | [], substr => if substr = [] then 0 else -1
  | c :: cs, substr =>
    if substr.isPrefixOf (c :: cs) then 0
    else
      let i := IndexChars cs substr
      if i < 0 then -1 else i + 1

/-- Go's `strings.Index` on strings. -/
def Index (s substr : String) : Int := IndexChars s.data substr.data

/-- Characters left after removing all leading and trailing white space. -/
def trimChars (s : List Char) : List Char :=
  ((s.dropWhile unicode.IsSpace).reverse.dropWhile unicode.IsSpace).reverse

/-- Go's `strings.TrimSpace`: `s` with all leading and trailing white space removed, as
defined by Unicode. -/
def TrimSpace (s : String) : String := ⟨trimChars s.data⟩

/-- What "`t` is `s` with the surrounding white space trimmed" means: `s` is `t` between two
runs of white space, and `t` neither starts nor ends with white space. -/
def IsTrimOf (t s : List Char) : Prop :=
  (∃ l r, s = l ++ t ++ r ∧ (∀ c ∈ l, unicode.IsSpace c = true) ∧
      (∀ c ∈ r, unicode.IsSpace c = true)) ∧
  (∀ c, t.head? = some c → unicode.IsSpace c = false) ∧
  (∀ c, t.getLast? = some c → unicode.IsSpace c = false)

end strings

namespace net

/-- The last three statements of `net.SplitHostPort`: the bracket checks on `hostport[j:]` and
`hostport[k:]`, then `port = hostport[i+1:]`. -/
def SplitHostPort.tail (hostport host : List Char) (j k i : Int) :
    Option (Except String (List Char × List Char)) :=
  (slice hostport j (len hostport)).bind fun fromJ =>
  if IndexByte fromJ '[' ≥ 0 then some (.error "unexpected '[' in address")
  else
    (slice hostport k (len hostport)).bind fun fromK =>
    if IndexByte fromK ']' ≥ 0 then some (.error "unexpected ']' in address")
    else
      (slice hostport (i + 1) (len hostport)).bind fun port =>
      some (.ok (host, port))

/-- Go's `net.SplitHostPort`, statement for statement.  The outer `Option` is `none` when an
index or slice expression panics; `Except.error` carries the reason of the `AddrError`. -/
def SplitHostPort (hostport : List Char) : Option (Except String (List Char × List Char)) :=
  -- The port starts after the last colon.
  let i := LastIndexByte hostport ':'
  if i < 0 then some (.error "missing port in address")
  else
    (index hostport 0).bind fun c0 =>
    if c0 = '[' then
      -- Expect the first ']' just before the last ':'.
      let end_ := IndexByte hostport ']'
      if end_ < 0 then some (.error "missing ']' in address")
      else if end_ + 1 = len hostport then
        -- There can't be a ':' behind the ']' now.
        some (.error "missing port in address")
      else if end_ + 1 = i then
        -- The expected result.
        (slice hostport 1 end_).bind fun host =>
        SplitHostPort.tail hostport host 1 (end_ + 1) i
      else
        -- Either ']' isn't followed by a colon, or it is
        -- followed by a colon that is not the last one.
        (index hostport (end_ + 1)).bind fun c =>
        if c = ':' then some (.error "too many colons in address")
        else some (.error "missing port in address")
    else
      (slice hostport 0 i).bind fun host =>
      if IndexByte host ':' ≥ 0 then some (.error "too many colons in address")
      else SplitHostPort.tail hostport host 0 0 i

/-- The two address forms `net.SplitHostPort` documents: `host:port`, where neither part holds
a colon or a bracket, and `[host]:port`, where the host is free of brackets (it is an IPv6
literal, colons included) and the port is free of colons and brackets. -/
def HostPortForm (addr host port : List Char) : Prop :=
  (addr = host ++ ':' :: port ∧ ':' ∉ host ∧ '[' ∉ host ∧ ']' ∉ host ∧
      ':' ∉ port ∧ '[' ∉ port ∧ ']' ∉ port) ∨
  (addr = '[' :: (host ++ ']' :: ':' :: port) ∧ '[' ∉ host ∧ ']' ∉ host ∧
      ':' ∉ port ∧ '[' ∉ port ∧ ']' ∉ port)

end net

namespace utf8

/-- The bytes of a character in UTF-8 (`utf8.AppendRune`). -/
def EncodeRune (c : Char) : List Nat :=
  let v := c.toNat
  if v < 0x80 then [v]
  else if v < 0x800 then [0xC0 + v / 64, 0x80 + v % 64]
  else if v < 0x10000 then [0xE0 + v / 4096, 0x80 + v / 64 % 64, 0x80 + v % 64]
  else [0xF0 + v / 262144, 0x80 + v / 4096 % 64, 0x80 + v / 64 % 64, 0x80 + v % 64]

end utf8

/-- The conversion `[]byte(s)`: the bytes of a string. -/
def bytes (s : List Char) : List Nat := s.flatMap utf8.EncodeRune

namespace url

/-- The table `upperhex` of `net/url`. -/
def upperhex (n : Nat) : Char := "0123456789ABCDEF".data.getD n '0'

/-- The function `ishex` of `net/url`. -/
def ishex (c : Char) : Bool :=
  let n := c.toNat
  (0x30 ≤ n && n ≤ 0x39) || (0x61 ≤ n && n ≤ 0x66) || (0x41 ≤ n && n ≤ 0x46)

/-- The function `unhex` of `net/url`. -/
def unhex (c : Char) : Nat :=
  let n := c.toNat
  if 0x30 ≤ n ∧ n ≤ 0x39 then n - 0x30
  else if 0x61 ≤ n ∧ n ≤ 0x66 then n - 0x61 + 10
  else if 0x41 ≤ n ∧ n ≤ 0x46 then n - 0x41 + 10
  else 0

/-- The function `shouldEscape` of `net/url` in the mode `encodePath`: letters, digits and
`-_.~` are left alone, and so are the reserved characters `$&+,/:;=@`; the question mark and
everything else (every byte that is not ASCII included) is escaped. -/
def shouldEscape (c : Char) : Bool :=
  let n := c.toNat
  if (0x61 ≤ n ∧ n ≤ 0x7A) ∨ (0x41 ≤ n ∧ n ≤ 0x5A) ∨ (0x30 ≤ n ∧ n ≤ 0x39) then false
  else if c = '-' ∨ c = '_' ∨ c = '.' ∨ c = '~' then false
  else if c = '$' ∨ c = '&' ∨ c = '+' ∨ c = ',' ∨ c = '/' ∨ c = ':' ∨ c = ';' ∨ c = '=' ∨
      c = '@' then false
  else true

/-- The three characters `%XX` that stand for a byte. -/
def percent (b : Nat) : List Char := ['%', upperhex (b / 16), upperhex (b % 16)]

/-- The function `escape` of `net/url` in the mode `encodePath`. -/
def escape (s : List Char) : List Char :=
  s.flatMap fun c => if shouldEscape c then (utf8.EncodeRune c).flatMap percent else [c]

/-- The function `unescape` of `net/url` in the mode `encodePath`, which is also what
`url.PathUnescape` computes: the bytes of the decoded text, or `none` when a `%` is not followed
by two hexadecimal digits. -/
def unescape : List Char → Option (List Nat)
  | [] => some []
  | [c] => if c = '%' then none else some (utf8.EncodeRune c)
  | [c, a] => if c = '%' then none else (unescape [a]).map fun t => utf8.EncodeRune c ++ t
  | c :: a :: b :: rest =>
    if c = '%' then
      if ishex a ∧ ishex b then (unescape rest).map fun t => (unhex a * 16 + unhex b) :: t
      else none
    else (unescape (a :: b :: rest)).map fun t => utf8.EncodeRune c ++ t

/-- The function `validEncoded` of `net/url` in the mode `encodePath`. -/
def validEncoded (s : List Char) : Bool :=
  s.all fun c => "!$&'()*+,;=:@[]%".data.contains c || !shouldEscape c

end url

namespace textproto

/-- Bytes allowed in a header field name (the `token` characters of RFC 7230). -/
def validHeaderFieldByte (c : Char) : Bool :=
  c.isAlphanum || "!#$%&'*+-.^_`|~".data.contains c

/-- The rewriting loop of `canonicalMIMEHeaderKey`: upper-case the first letter and every
letter that follows a hyphen, lower-case the others. -/
def canonicalLoop : Bool → List Char → List Char
  | _, [] => []
  | upper, c :: cs =>
    let c := if upper && 'a' ≤ c && c ≤ 'z' then c.toUpper
             else if !upper && 'A' ≤ c && c ≤ 'Z' then c.toLower
             else c
    c :: canonicalLoop (c = '-') cs

/-- Go's `textproto.CanonicalMIMEHeaderKey`: a key holding a byte that is not valid in a
field name is returned unchanged. -/
def CanonicalMIMEHeaderKey (s : String) : String :=
  if s.data.all validHeaderFieldByte then ⟨canonicalLoop true s.data⟩ else s

end textproto

namespace http

/-- Go's `http.Header`, a `map[string][]string`: `none` for a key that is not in the map. -/
abbrev Header := String → Option (List String)

/-- The empty map, `make(http.Header)`. -/
def Header.empty : Header := fun _ => none

/-- Go's `Header.Get`: the first value stored under the canonical form of `key`, or `""`. -/
def Header.Get (h : Header) (key : String) : String :=
  match h (textproto.CanonicalMIMEHeaderKey key) with
  | some (v :: _) => v
  | _ => ""

/-- Go's `Header.Set`: replace whatever is stored under the canonical form of `key`. -/
def Header.Set (h : Header) (key value : String) : Header :=
  fun k => if k = textproto.CanonicalMIMEHeaderKey key then some [value] else h k

/-- Go's `Header.Del`. -/
def Header.Del (h : Header) (key : String) : Header :=
  fun k => if k = textproto.CanonicalMIMEHeaderKey key then none else h k

/-- The field `URL` of a request: the parts of `url.URL` that the service and its dispatcher
read. -/
structure URL where
  Path : String
  RawPath : String
  RawQuery : String

/-- Go's `URL.EscapedPath`: `RawPath` when it is a valid encoding of `Path`, and the default
encoding of `Path` otherwise. -/
def URL.EscapedPath (u : URL) : String :=
  if u.RawPath ≠ "" ∧ url.validEncoded u.RawPath.data = true ∧
      url.unescape u.RawPath.data = some (bytes u.Path.data) then
    u.RawPath
  else if u.Path = "*" then "*"
  else ⟨url.escape u.Path.data⟩

/-- The fields of `http.Request` that the service and its dispatcher read. -/
structure Request where
  Method : String
  URL : URL
  ProtoMajor : Int
  ProtoMinor : Int
  Header : Header
  RemoteAddr : String
  RequestURI : String

/-- Go's `Request.ProtoAtLeast`. -/
def Request.ProtoAtLeast (r : Request) (major minor : Int) : Bool :=
  r.ProtoMajor > major || (r.ProtoMajor = major && r.ProtoMinor ≥ minor)

/-- What a call of `Write` returns: the byte count and the error, if any. -/
structure WriteResult where
  n : Int
  err : Option String

/-- The dynamic type behind a value of the interface `http.ResponseWriter`, over the state `σ` of
the object: its methods `Header`, `Write` and `WriteHeader` (`header` reads the live map that
`Header()` returns, `setHeader` is a store through that map), and its method `Flush` when the
type has one, that is, when a type assertion to `http.Flusher` succeeds. -/
structure ResponseWriter (σ : Type) where
  header : σ → Header
  setHeader : σ → Header → σ
  write : σ → String → Option (σ × WriteResult)
  writeHeader : σ → Int → Option σ
  flush : Option (σ → Option σ)

/-- The body of a `func(w http.ResponseWriter, r *http.Request)`, as the calls it makes on `w`
and on the logger, each continuing with what the call returned. -/
inductive Prog where
  /-- The function returns. -/
  | ret : Prog
  /-- The function panics. -/
  | panic : Prog
  /-- Read `w.Header()`. -/
  | getHeader (k : Header → Prog) : Prog
  /-- Change the map `w.Header()`. -/
  | setHeader (f : Header → Header) (k : Prog) : Prog
  /-- Call `w.WriteHeader(code)`. -/
  | writeHeader (code : Int) (k : Prog) : Prog
  /-- Call `w.Write(b)`. -/
  | write (b : String) (k : WriteResult → Prog) : Prog
  /-- The statement `if f, ok := w.(http.Flusher); ok { f.Flush(); yes } else { no }`. -/
  | flush (yes no : Prog) : Prog
  /-- Call `logger.Printf` with a message. -/
  | logf (msg : String) (k : Prog) : Prog

/-- Run a handler body on a writer of dynamic type `W` in state `st.1`, the log holding `st.2`
so far; `none` when it panics. -/
def Prog.run {σ : Type} (W : ResponseWriter σ) : Prog → σ × List String → Option (σ × List String)
  | .ret, st => some st
  | .panic, _ => none
  | .getHeader k, st => (k (W.header st.1)).run W st
  | .setHeader f k, st => k.run W (W.setHeader st.1 (f (W.header st.1)), st.2)
  | .writeHeader code k, st =>
    match W.writeHeader st.1 code with
    | none => none
    | some w => k.run W (w, st.2)
  | .write b k, st =>
    match W.write st.1 b with
    | none => none
    | some (w, res) => (k res).run W (w, st.2)
  | .flush yes no, st =>
    match W.flush with
    | none => no.run W st
    | some f =>
      match f st.1 with
      | none => none
      | some w => yes.run W (w, st.2)
  | .logf msg k, st => k.run W (st.1, st.2 ++ [msg])

/-- No type assertion on the writer occurs in the body: it uses `w` through the three methods of
`http.ResponseWriter` only. -/
def Prog.plain : Prog → Prop
  | .ret => True
  | .panic => True
  | .getHeader k => ∀ h, (k h).plain
  | .setHeader _ k => k.plain
  | .writeHeader _ k => k.plain
  | .write _ k => ∀ res, (k res).plain
  | .flush _ _ => False
  | .logf _ k => k.plain

/-- The codes passed to `w.WriteHeader`, in call order, when the body runs on a writer of
dynamic type `W` from state `w` (up to the return or the first panic). -/
def Prog.headerCalls {σ : Type} (W : ResponseWriter σ) : Prog → σ → List Int
  | .ret, _ => []
  | .panic, _ => []
  | .getHeader k, w => (k (W.header w)).headerCalls W w
  | .setHeader f k, w => k.headerCalls W (W.setHeader w (f (W.header w)))
  | .writeHeader code k, w =>
    match W.writeHeader w code with
    | none => [code]
    | some w1 => code :: k.headerCalls W w1
  | .write b k, w =>
    match W.write w b with
    | none => []
    | some (w1, res) => (k res).headerCalls W w1
  | .flush yes no, w =>
    match W.flush with
    | none => no.headerCalls W w
    | some f =>
      match f w with
      | none => []
      | some w1 => yes.headerCalls W w1
  | .logf _ k, w => k.headerCalls W w

/-- A Go function `func(w http.ResponseWriter, r *http.Request)`. -/
abbrev HandlerFunc := Request → Prog

/-- An `http.Handler`: what `ServeHTTP(w, r)` does to a writer of any dynamic type and to the
log, given the text that `%v` prints for the time the call takes. -/
def Handler : Type 1 :=
  (σ : Type) → ResponseWriter σ → Request → String → σ × List String → Option (σ × List String)

/-- The adapter `http.HandlerFunc(f)`. -/
def HandlerFunc.toHandler (f : HandlerFunc) : Handler :=
  fun _ W r _ st => (f r).run W st

/-- The status with which `ServeMux` redirects a request to its cleaned path:
`StatusMovedPermanently` in the older releases of Go that have this dispatcher,
`StatusTemporaryRedirect` in the newer ones. -/
inductive CleanRedirect where
  | MovedPermanently
  | TemporaryRedirect

/-- The status code of a redirect to the cleaned path. -/
def CleanRedirect.code : CleanRedirect → Int
  | .MovedPermanently => 301
  | .TemporaryRedirect => 307

/-- What depends on the release of the standard library or is computed by library functions
that are taken as parameters: `http.DetectContentType`, the `Location` value `Redirect` derives
from a cleaned path and a raw query, the short HTML body `Redirect` writes for that location and
status, and the status of the redirect to a cleaned path. -/
structure Lib where
  DetectContentType : String → String
  redirectLocation : String → String → String
  redirectBody : String → Int → String
  cleanRedirect : CleanRedirect

/-- A choice of the library texts for statements about one concrete request, with the redirect
status of the newer releases. -/
def Lib.sample : Lib where
  DetectContentType := fun _ => "text/plain; charset=utf-8"
  redirectLocation := fun path query => if query = "" then path else path ++ "?" ++ query
  redirectBody := fun location _ => "<a href=\"" ++ location ++ "\">Redirect</a>.\n"
  cleanRedirect := .TemporaryRedirect

/-- The same choice with the redirect status of the older releases. -/
def Lib.sampleOlder : Lib := { Lib.sample with cleanRedirect := .MovedPermanently }

/-- Go's `http.Error`. -/
def Error (error : String) (code : Int) : Prog :=
  .setHeader (fun h => h.Del "Content-Length") <|
  .setHeader (fun h => h.Set "Content-Type" "text/plain; charset=utf-8") <|
  .setHeader (fun h => h.Set "X-Content-Type-Options" "nosniff") <|
  .writeHeader code <|
  .write (error ++ "\n") fun _ => .ret

/-- Go's `http.NotFound`. -/
def NotFound : HandlerFunc := fun _ => Error "404 page not found" 404

/-- Go's `http.Redirect` to the location made of `path` and `query`. -/
def Redirect (lib : Lib) (path query : String) (code : Int) : HandlerFunc := fun r =>
  .getHeader fun h =>
    let hadCT := (h "Content-Type").isSome
    .setHeader (fun h => h.Set "Location" (lib.redirectLocation path query)) <|
    .setHeader (fun h =>
      if !hadCT && (r.Method = "GET" || r.Method = "HEAD") then
        h.Set "Content-Type" "text/html; charset=utf-8"
      else h) <|
    .writeHeader code <|
    if !hadCT && r.Method = "GET" then
      .write (lib.redirectBody (lib.redirectLocation path query) code ++ "\n") fun _ => .ret
    else .ret

/-- The elements of a path: the runs of characters between its slashes. -/
def pathElems : List Char → List (List Char)
  | [] => [[]]
  | c :: cs =>
    match pathElems cs with
    | [] => [[]]
    | e :: es => if c = '/' then [] :: e :: es else (c :: e) :: es

/-- The elements that `path.Clean` keeps of a rooted path, last one first: an empty element and
`.` are dropped, `..` removes the element before it (and is dropped at the root). -/
def keptElems : List (List Char) → List (List Char) → List (List Char)
  | kept, [] => kept
  | kept, e :: es =>
    if e = [] ∨ e = ['.'] then keptElems kept es
    else if e = ['.', '.'] then keptElems kept.tail es
    else keptElems (e :: kept) es

/-- Go's `path.Clean` on a rooted path (one that begins with a slash). -/
def Clean (p : List Char) : List Char :=
  '/' :: List.intercalate ['/'] (keptElems [] (pathElems p)).reverse

/-- The function `cleanPath` of `net/http`: the canonical form of a request path, a trailing
slash being kept. -/
def cleanPath (p : String) : String :=
  if p = "" then "/"
  else
    let p := if p.data.head? ≠ some '/' then '/' :: p.data else p.data
    let np := Clean p
    if p.getLast? = some '/' ∧ np ≠ ['/'] then ⟨np ++ ['/']⟩ else ⟨np⟩

/-- Go's `pathUnescape` of `net/http`: the decoded bytes of a path segment, and the segment as
it is when it is not validly escaped. -/
def pathUnescape (seg : List Char) : List Nat :=
  (url.unescape seg).getD (bytes seg)

/-- Go's `http.ServeMux` holding patterns that name a path of literal segments, without a
method, a host, a wildcard or a trailing slash, the only kind `routes` registers. -/
structure ServeMux where
  m : List (String × Handler)

/-- Go's `http.NewServeMux`. -/
def NewServeMux : ServeMux := ⟨[]⟩

/-- Go's `ServeMux.Handle`. -/
def ServeMux.Handle (mux : ServeMux) (pattern : String) (handler : http.Handler) : ServeMux :=
  ⟨mux.m ++ [(pattern, handler)]⟩

/-- The segments `parsePattern` gives such a pattern: the unescaped runs between the slashes
that follow the leading one. -/
def patternSegments (pattern : String) : List (List Nat) :=
  (pathElems pattern.data.tail).map pathUnescape

/-- The segments that follow the first one: `firstSegment` reads a path that is a lone slash
as the segment `/`, so a trailing slash ends the list with that segment. -/
def laterSegments : List (List Char) → List (List Nat)
  | [] => []
  | [e] => [if e = [] then bytes ['/'] else pathUnescape e]
  | e :: es => pathUnescape e :: laterSegments es

/-- The segments `routingNode.matchPath` cuts a request path into by repeated `firstSegment`:
the first character is dropped, the run up to the next slash is unescaped, and so on from that
slash. -/
def requestSegments (path : List Char) : List (List Nat) :=
  match path with
  | [] => []
  | [c] => [if c = '/' then bytes ['/'] else []]
  | _ :: t =>
    match pathElems t with
    | [] => []
    | e :: es => pathUnescape e :: laterSegments es

/-- The match of the routing tree on such patterns: the handler whose pattern has the segments
of the request path, or `NotFoundHandler()`. -/
def ServeMux.handlerFor (mux : ServeMux) (path : String) : http.Handler :=
  match mux.m.find? fun e => patternSegments e.1 = requestSegments path.data with
  | some e => e.2
  | none => NotFound.toHandler

/-- Go's `ServeMux.findHandler`: the escaped path of a `CONNECT` request is matched as it is;
the escaped path of any other request is cleaned first, and when cleaning changes it the request
is answered with a redirect to the cleaned path.  (The redirect to a path with a trailing slash
does not arise, no pattern ending in a slash.) -/
def ServeMux.findHandler (lib : Lib) (mux : ServeMux) (r : Request) : http.Handler :=
  let escapedPath := r.URL.EscapedPath
  if r.Method = "CONNECT" then mux.handlerFor escapedPath
  else
    let path := cleanPath escapedPath
    if path ≠ escapedPath then
      (Redirect lib path r.URL.RawQuery lib.cleanRedirect.code).toHandler
    else mux.handlerFor path

/-- Go's `ServeMux.ServeHTTP`. -/
def ServeMux.ServeHTTP (lib : Lib) (mux : ServeMux) : http.Handler :=
  fun σ W r elapsed st =>
    if r.RequestURI = "*" then
      Prog.run W
        ((if r.ProtoAtLeast 1 1 then Prog.setHeader fun h => h.Set "Connection" "close"
          else id) (.writeHeader 400 .ret)) st
    else (mux.findHandler lib r) σ W r elapsed st

end http

namespace httptest

open http

/-- Go's `httptest.ResponseRecorder`, the `http.ResponseWriter` that the tests of the
repository hand to the handlers. -/
structure ResponseRecorder where
  Code : Int
  HeaderMap : Header
  Body : String
  Flushed : Bool
  snapHeader : Option Header
  wroteHeader : Bool

/-- Go's `httptest.NewRecorder`. -/
def NewRecorder : ResponseRecorder where
  Code := 200
  HeaderMap := Header.empty
  Body := ""
  Flushed := false
  snapHeader := none
  wroteHeader := false

/-- Go's `ResponseRecorder.WriteHeader`: only the first call counts, and it panics on a code
outside `100..999`. -/
def ResponseRecorder.WriteHeader (rw : ResponseRecorder) (code : Int) : Option ResponseRecorder :=
  if rw.wroteHeader then some rw
  else if code < 100 ∨ code > 999 then none
  else some { rw with Code := code, wroteHeader := true, snapHeader := some rw.HeaderMap }

/-- The unexported `ResponseRecorder.writeHeader` that `Write` calls first: an implicit
`WriteHeader(200)`, the content type being sniffed when none is set. -/
def ResponseRecorder.writeHeader (lib : Lib) (rw : ResponseRecorder) (b : String) :
    Option ResponseRecorder :=
  if rw.wroteHeader then some rw
  else
    let m := rw.HeaderMap
    let hasType := (m "Content-Type").isSome
    let hasTE := m.Get "Transfer-Encoding" ≠ ""
    let rw := if !hasType && !hasTE then
        { rw with HeaderMap := m.Set "Content-Type" (lib.DetectContentType b) }
      else rw
    rw.WriteHeader 200

/-- Go's `ResponseRecorder.Write`. -/
def ResponseRecorder.Write (lib : Lib) (rw : ResponseRecorder) (buf : String) :
    Option (ResponseRecorder × WriteResult) :=
  (rw.writeHeader lib buf).map fun rw =>
    ({ rw with Body := rw.Body ++ buf }, ⟨buf.utf8ByteSize, none⟩)

/-- Go's `ResponseRecorder.Flush`. -/
def ResponseRecorder.Flush (rw : ResponseRecorder) : Option ResponseRecorder :=
  (if !rw.wroteHeader then rw.WriteHeader 200 else some rw).map fun rw =>
    { rw with Flushed := true }

/-- The method set of `*httptest.ResponseRecorder`. -/
def ResponseRecorder.writer (lib : Lib) : ResponseWriter ResponseRecorder where
  header rw := rw.HeaderMap
  setHeader rw h := { rw with HeaderMap := h }
  write := ResponseRecorder.Write lib
  writeHeader := ResponseRecorder.WriteHeader
  flush := some ResponseRecorder.Flush

/-- The parts of an `http.Response` the tests look at. -/
structure Response where
  StatusCode : Int
  Header : Header
  Body : String

/-- Go's `ResponseRecorder.Result`: the status, the headers as they stood at the first
`WriteHeader`, and the body. -/
def ResponseRecorder.Result (rw : ResponseRecorder) : Response where
  StatusCode := if rw.Code = 0 then 200 else rw.Code
  Header := rw.snapHeader.getD rw.HeaderMap
  Body := rw.Body

/-- Go's `httptest.NewRequest(method, target, nil)` for a target that is a plain path: an
HTTP/1.1 request without headers, from the remote address `192.0.2.1:1234`. -/
def NewRequest (method target : String) : Request where
  Method := method
  URL := ⟨target, "", ""⟩
  ProtoMajor := 1
  ProtoMinor := 1
  Header := Header.empty
  RemoteAddr := "192.0.2.1:1234"
  RequestURI := target

end httptest

namespace fmt

/-- The verb `%d` on an `int`. -/
def decimal (n : Int) : String :=
  if n < 0 then "-" ++ Nat.repr n.natAbs else Nat.repr n.toNat

end fmt

namespace json

/-- The hexadecimal digit of a number below sixteen. -/
def hexDigit (n : Nat) : Char := "0123456789abcdef".data.getD n '0'

/-- The backslash. -/
def backslash : Char := Char.ofNat 0x5C

/-- The double quote. -/
def dquote : Char := Char.ofNat 0x22

/-- How `encoding/json` writes one character inside a string, HTML escaping being on as it is
for an `Encoder` by default. -/
def escapeChar (c : Char) : List Char :=
  let n := c.toNat
  if c = dquote ∨ c = backslash then [backslash, c]
  else if n = 0x08 then [backslash, 'b']
  else if n = 0x0C then [backslash, 'f']
  else if n = 0x0A then [backslash, 'n']
  else if n = 0x0D then [backslash, 'r']
  else if n = 0x09 then [backslash, 't']
  else if n < 0x20 ∨ c = '<' ∨ c = '>' ∨ c = '&' then
    [backslash, 'u', '0', '0', hexDigit (n / 16), hexDigit (n % 16)]
  else if n = 0x2028 then backslash :: "u2028".data
  else if n = 0x2029 then backslash :: "u2029".data
  else [c]

/-- A Go string as a JSON string. -/
def quote (s : String) : String := ⟨dquote :: (s.data.flatMap escapeChar ++ [dquote])⟩

end json

end Go

namespace server

open Go Go.http

/-- The function `getClientIP` of `server.go`. -/
def getClientIP (r : Request) : Option String :=
  -- Check X-Forwarded-For header first (for proxies/load balancers)
  let xff := r.Header.Get "X-Forwarded-For"
  if xff ≠ "" then
    -- X-Forwarded-For can contain multiple IPs, take the first one
    let idx := strings.Index xff ","
    if idx ≠ -1 then
      (slice xff.data 0 idx).map fun cut => strings.TrimSpace ⟨cut⟩
    else
      some (strings.TrimSpace xff)
  else
    -- Check X-Real-IP header (common nginx/cloudflare setup)
    let xri := r.Header.Get "X-Real-IP"
    if xri ≠ "" then
      some (strings.TrimSpace xri)
    else
      -- Fall back to RemoteAddr
      match net.SplitHostPort r.RemoteAddr.data with
      | none => none
      | some (.error _) => some r.RemoteAddr
      | some (.ok (ip, _)) => some ⟨ip⟩

/-- A request carrying at most the two proxy headers and a remote address. -/
def requestFrom (xff xri : Option String) (remoteAddr : String) : Request where
  Method := "GET"
  URL := ⟨"/test", "", ""⟩
  ProtoMajor := 1
  ProtoMinor := 1
  Header := fun k =>
    if k = "X-Forwarded-For" then xff.map fun v => [v]
    else if k = "X-Real-Ip" then xri.map fun v => [v]
    else none
  RemoteAddr := remoteAddr
  RequestURI := "/test"

/-- The type `responseWriter` of `server.go`: the embedded `http.ResponseWriter`, whose object
has state `σ`, and the recorded status code. -/
structure responseWriter (σ : Type) where
  ResponseWriter : σ
  statusCode : Int

/-- The method `(*responseWriter).WriteHeader` of `server.go`, the embedded writer having dynamic
type `W`. -/
def responseWriter.WriteHeader {σ : Type} (W : http.ResponseWriter σ) (rw : responseWriter σ)
    (code : Int) : Option (responseWriter σ) :=
  -- rw.statusCode = code
  let rw := { rw with statusCode := code }
  -- rw.ResponseWriter.WriteHeader(code)
  (W.writeHeader rw.ResponseWriter code).map fun w => { rw with ResponseWriter := w }

/-- The method set of `*responseWriter`: `Header` and `Write` are promoted from the embedded
interface value, `WriteHeader` is the method above, and there is no `Flush`, whatever the
embedded writer implements. -/
def responseWriter.writer {σ : Type} (W : http.ResponseWriter σ) :
    http.ResponseWriter (responseWriter σ) where
  header rw := W.header rw.ResponseWriter
  setHeader rw h := { rw with ResponseWriter := W.setHeader rw.ResponseWriter h }
  write rw b := (W.write rw.ResponseWriter b).map fun res =>
    ({ rw with ResponseWriter := res.1 }, res.2)
  writeHeader := responseWriter.WriteHeader W
  flush := none

/-- The type `healthCheckResponse` of `handlers.go`. -/
structure healthCheckResponse where
  Status : String

/-- What `json.NewEncoder(w).Encode(resp)` hands to `w.Write` for a `healthCheckResponse`: the
object with the one key `status`, followed by a newline. -/
def healthCheckResponse.Encode (resp : healthCheckResponse) : String :=
  "\x7b\"status\":" ++ json.quote resp.Status ++ "\x7d" ++ "\n"

/-- The type `Server` of `server.go`.  The logger is the log that a handler is run on. -/
structure Server where
  mux : ServeMux
  message : String

/-- The constant `http.MethodGet`. -/
def MethodGet : String := "GET"

/-- The constant `http.StatusOK`. -/
def StatusOK : Int := 200

/-- The constant `http.StatusMethodNotAllowed`. -/
def StatusMethodNotAllowed : Int := 405

/-- The method `healthCheckHandler` of `handlers.go`. -/
def Server.healthCheckHandler (_s : Server) : HandlerFunc := fun r =>
  if r.Method ≠ MethodGet then
    .writeHeader StatusMethodNotAllowed .ret
  else
    .setHeader (fun h => h.Set "Content-Type" "application/json") <|
    .writeHeader StatusOK <|
    let resp : healthCheckResponse := { Status := "ok" }
    .write resp.Encode fun _ => .ret

/-- The method `helloWorldHandler` of `handlers.go`. -/
def Server.helloWorldHandler (s : Server) : HandlerFunc := fun r =>
  if r.Method ≠ MethodGet then
    .writeHeader StatusMethodNotAllowed .ret
  else
    .setHeader (fun h => h.Set "Content-Type" "text/plain") <|
    .writeHeader StatusOK <|
    .write (s.message ++ "\n") fun _ => .ret

/-- The message `fmt.Sprintf("%s %s - %d - %s - %v", ...)` of `logMiddleware`; `duration` is the
text `%v` prints for the measured time. -/
def logLine (method path : String) (statusCode : Int) (clientIP duration : String) : String :=
  method ++ " " ++ path ++ " - " ++ fmt.decimal statusCode ++ " - " ++ clientIP ++ " - " ++ duration

/-- The method `logMiddleware` of `server.go`, `next` being given as a function. -/
def Server.logMiddleware (_s : Server) (next : HandlerFunc) : Handler :=
  fun σ W r elapsed st =>
    -- start := time.Now()
    let wrapped : responseWriter σ := { ResponseWriter := st.1, statusCode := 200 }
    match next.toHandler (responseWriter σ) (responseWriter.writer W) r elapsed (wrapped, st.2) with
    | none => none
    | some (wrapped, log) =>
      -- duration := time.Since(start)
      match getClientIP r with
      | none => none
      | some clientIP =>
        some (wrapped.ResponseWriter,
          log ++ [logLine r.Method r.URL.Path wrapped.statusCode clientIP elapsed])

/-- The handler `mockHandler` of `TestLogMiddleware`: `WriteHeader(http.StatusOK)`, then
`Write([]byte("mock response"))`. -/
def mockHandler : HandlerFunc := fun _ =>
  .writeHeader StatusOK <| .write "mock response" fun _ => .ret

/-- A handler that calls `WriteHeader` twice: `w.WriteHeader(404); w.WriteHeader(500)`. -/
def twoCodesHandler : HandlerFunc := fun _ =>
  .writeHeader 404 <| .writeHeader 500 .ret

/-- A handler that flushes when the writer lets it, as streaming handlers do:
`if f, ok := w.(http.Flusher); ok { f.Flush() }; w.WriteHeader(404)`. -/
def flushingHandler : HandlerFunc := fun _ =>
  .flush (.writeHeader 404 .ret) (.writeHeader 404 .ret)

/-- The method `routes` of `server.go`. -/
def Server.routes (s : Server) : Server :=
  let mux := s.mux.Handle "/health-check" (s.logMiddleware s.healthCheckHandler)
  let mux := mux.Handle "/hello-world" (s.logMiddleware s.helloWorldHandler)
  { s with mux := mux }

/-- The function `NewServer` of `server.go`.  Its logger argument is the log that the handlers
are run on; a nil logger is replaced by the default one, which is a log as well. -/
def NewServer (message : String) : Server :=
  Server.routes { mux := NewServeMux, message := message }

/-- The method `Handler` of `server.go`: the mux. -/
def Server.Handler (lib : Lib) (s : Server) : Handler :=
  s.mux.ServeHTTP lib

end server

/-! ## Facts about the string primitives and `net.SplitHostPort` -/

namespace Go

theorem IndexByte_of_not_mem (s : List Char) (b : Char) (h : b ∉ s) : IndexByte s b = -1 := by
  induction s with
  | nil => rfl
  | cons c cs ih =>
    have hc : c ≠ b := fun e => h (e ▸ List.mem_cons_self _ _)
    have hcs : b ∉ cs := fun m => h (List.mem_cons_of_mem _ m)
    simp [IndexByte, hc, ih hcs]

theorem IndexByte_append_cons (pre post : List Char) (b : Char) (h : b ∉ pre) :
    IndexByte (pre ++ b :: post) b = (pre.length : Int) := by
  induction pre with
  | nil => simp [IndexByte]
  | cons c cs ih =>
    have hc : c ≠ b := fun e => h (e ▸ List.mem_cons_self _ _)
    have hcs : b ∉ cs := fun m => h (List.mem_cons_of_mem _ m)
    have hlt : ¬ ((cs.length : Int) < 0) := by omega
    simp [IndexByte, hc, ih hcs, hlt]

theorem IndexByte_cases (s : List Char) (b : Char) :
    (b ∉ s ∧ IndexByte s b = -1) ∨
      ∃ pre post, s = pre ++ b :: post ∧ b ∉ pre ∧ IndexByte s b = (pre.length : Int) := by
  by_cases h : b ∈ s
  · right
    obtain ⟨pre, post, hs, hpre⟩ := List.eq_append_cons_of_mem h
    exact ⟨pre, post, hs, hpre, hs ▸ IndexByte_append_cons pre post b hpre⟩
  · exact Or.inl ⟨h, IndexByte_of_not_mem s b h⟩

theorem LastIndexByte_of_not_mem (s : List Char) (b : Char) (h : b ∉ s) :
    LastIndexByte s b = -1 := by
  induction s with
  | nil => rfl
  | cons c cs ih =>
    have hc : c ≠ b := fun e => h (e ▸ List.mem_cons_self _ _)
    have hcs : b ∉ cs := fun m => h (List.mem_cons_of_mem _ m)
    simp [LastIndexByte, hc, ih hcs]

theorem LastIndexByte_append_cons (pre post : List Char) (b : Char) (h : b ∉ post) :
    LastIndexByte (pre ++ b :: post) b = (pre.length : Int) := by
  induction pre with
  | nil => simp [LastIndexByte, LastIndexByte_of_not_mem post b h]
  | cons c cs ih =>
    have hnn : (0 : Int) ≤ (cs.length : Int) := by omega
    simp [LastIndexByte, ih, hnn]

theorem LastIndexByte_cases (s : List Char) (b : Char) :
    (b ∉ s ∧ LastIndexByte s b = -1) ∨
      ∃ pre post, s = pre ++ b :: post ∧ b ∉ post ∧ LastIndexByte s b = (pre.length : Int) := by
  by_cases h : b ∈ s
  · right
    have hr : b ∈ s.reverse := List.mem_reverse.mpr h
    obtain ⟨pre, post, hs, hpre⟩ := List.eq_append_cons_of_mem hr
    have hs2 : s = post.reverse ++ b :: pre.reverse := by
      have := congrArg List.reverse hs
      simpa using this
    have hp : b ∉ pre.reverse := fun m => hpre (List.mem_reverse.mp m)
    exact ⟨post.reverse, pre.reverse, hs2, hp, hs2 ▸ LastIndexByte_append_cons _ _ b hp⟩
  · exact Or.inl ⟨h, LastIndexByte_of_not_mem s b h⟩

theorem slice_upto (pre post : List Char) :
    slice (pre ++ post) 0 (pre.length : Int) = some pre := by
  simp [slice]

theorem slice_from (pre post : List Char) :
    slice (pre ++ post) (pre.length : Int) (len (pre ++ post)) = some post := by
  have h : ((pre.length : Int) + (post.length : Int)).toNat = (pre ++ post).length := by
    simp; omega
  simp only [slice, len, List.length_append, Nat.cast_add]
  rw [h, List.take_length]
  simp

theorem slice_all (s : List Char) : slice s 0 (len s) = some s := by
  simp [slice, len]

theorem strings.IndexChars_single (s : List Char) (b : Char) :
    strings.IndexChars s [b] = IndexByte s b := by
  induction s with
  | nil => simp [strings.IndexChars, IndexByte]
  | cons c cs ih =>
    by_cases h : c = b
    · subst h; simp [strings.IndexChars, IndexByte, List.isPrefixOf]
    · have h2 : ¬ b = c := fun e => h e.symm
      simp [strings.IndexChars, IndexByte, List.isPrefixOf, h, h2, ih]

theorem takeWhile_ne_append_cons (pre post : List Char) (b : Char) (h : b ∉ pre) :
    (pre ++ b :: post).takeWhile (fun c => c != b) = pre := by
  induction pre with
  | nil => simp [List.takeWhile]
  | cons c cs ih =>
    have hc : c ≠ b := fun e => h (e ▸ List.mem_cons_self _ _)
    have hcs : b ∉ cs := fun m => h (List.mem_cons_of_mem _ m)
    have hb : (c != b) = true := by simpa using hc
    rw [List.cons_append, List.takeWhile_cons, hb]
    simp only [if_true]
    rw [ih hcs]

theorem takeWhile_ne_of_not_mem (s : List Char) (b : Char) (h : b ∉ s) :
    s.takeWhile (fun c => c != b) = s := by
  induction s with
  | nil => rfl
  | cons c cs ih =>
    have hc : c ≠ b := fun e => h (e ▸ List.mem_cons_self _ _)
    have hcs : b ∉ cs := fun m => h (List.mem_cons_of_mem _ m)
    have hb : (c != b) = true := by simpa using hc
    rw [List.takeWhile_cons, hb]
    simp only [if_true]
    rw [ih hcs]


theorem IndexByte_nonneg_iff (s : List Char) (b : Char) : IndexByte s b ≥ 0 ↔ b ∈ s := by
  rcases IndexByte_cases s b with ⟨hn, he⟩ | ⟨pre, post, hs, _, he⟩
  · rw [he]; simp [hn]
  · rw [he]; subst hs; simp

theorem slice_from_one (c : Char) (s : List Char) : slice (c :: s) 1 (len (c :: s)) = some s := by
  have := slice_from [c] s
  simpa using this

theorem slice_inner (c : Char) (mid post : List Char) :
    slice (c :: (mid ++ post)) 1 ((mid.length : Int) + 1) = some mid := by
  have h : ((mid.length : Int) + 1).toNat = mid.length + 1 := by omega
  simp only [slice]
  rw [if_pos (by simp), h]
  simp

theorem index_zero_cons (c : Char) (s : List Char) : index (c :: s) 0 = some c := by
  simp [index]

end Go

namespace Go.net

theorem SplitHostPort_tail_ok (s host port : List Char) (j k i : Int) (fromJ fromK : List Char)
    (hj : slice s j (len s) = some fromJ) (hk : slice s k (len s) = some fromK)
    (hi : slice s (i + 1) (len s) = some port) (h1 : '[' ∉ fromJ) (h2 : ']' ∉ fromK) :
    SplitHostPort.tail s host j k i = some (.ok (host, port)) := by
  have e1 : ¬ IndexByte fromJ '[' ≥ 0 := by rw [IndexByte_nonneg_iff]; exact h1
  have e2 : ¬ IndexByte fromK ']' ≥ 0 := by rw [IndexByte_nonneg_iff]; exact h2
  simp [SplitHostPort.tail, hj, hk, hi, e1, e2]

theorem SplitHostPort_tail_inv (s host : List Char) (j k i : Int) (fromJ fromK port : List Char)
    (hj : slice s j (len s) = some fromJ) (hk : slice s k (len s) = some fromK)
    (hi : slice s (i + 1) (len s) = some port) :
    ∃ res, SplitHostPort.tail s host j k i = some res ∧
      ∀ h p, res = .ok (h, p) → h = host ∧ p = port ∧ '[' ∉ fromJ ∧ ']' ∉ fromK := by
  by_cases h1 : '[' ∈ fromJ
  · have e1 : IndexByte fromJ '[' ≥ 0 := (IndexByte_nonneg_iff _ _).mpr h1
    refine ⟨.error "unexpected '[' in address", ?_, ?_⟩
    · simp [SplitHostPort.tail, hj, e1]
    · intro h p e; cases e
  · have e1 : ¬ IndexByte fromJ '[' ≥ 0 := by rw [IndexByte_nonneg_iff]; exact h1
    by_cases h2 : ']' ∈ fromK
    · have e2 : IndexByte fromK ']' ≥ 0 := (IndexByte_nonneg_iff _ _).mpr h2
      refine ⟨.error "unexpected ']' in address", ?_, ?_⟩
      · simp [SplitHostPort.tail, hj, hk, e1, e2]
      · intro h p e; cases e
    · refine ⟨.ok (host, port), SplitHostPort_tail_ok s host port j k i fromJ fromK hj hk hi h1 h2, ?_⟩
      intro h p e
      injection e with e
      injection e with e1 e2
      exact ⟨e1.symm, e2.symm, h1, h2⟩

/-- An address of the form `host:port` splits into its two parts. -/
theorem SplitHostPort_plain (host port : List Char)
    (h1 : ':' ∉ host) (h2 : '[' ∉ host) (h3 : ']' ∉ host)
    (h4 : ':' ∉ port) (h5 : '[' ∉ port) (h6 : ']' ∉ port) :
    SplitHostPort (host ++ ':' :: port) = some (.ok (host, port)) := by
  have hi : LastIndexByte (host ++ ':' :: port) ':' = (host.length : Int) :=
    LastIndexByte_append_cons host port ':' h4
  have hlt : ¬ ((host.length : Int) < 0) := by omega
  obtain ⟨c0, hc0, hne⟩ : ∃ c0, index (host ++ ':' :: port) 0 = some c0 ∧ c0 ≠ '[' := by
    cases host with
    | nil => exact ⟨':', by simp [index], by decide⟩
    | cons c cs =>
      refine ⟨c, by simp [index], ?_⟩
      intro e; exact h2 (e ▸ List.mem_cons_self _ _)
  have hcol : ¬ IndexByte host ':' ≥ 0 := by rw [IndexByte_nonneg_iff]; exact h1
  have hport : slice (host ++ ':' :: port) ((host.length : Int) + 1) (len (host ++ ':' :: port))
      = some port := by
    have := slice_from (host ++ [':']) port
    simpa using this
  have hall1 : '[' ∉ host ++ ':' :: port := by simp [h2, h5]
  have hall2 : ']' ∉ host ++ ':' :: port := by simp [h3, h6]
  simp only [SplitHostPort, hi, if_neg hlt, hc0, Option.some_bind, if_neg hne,
    slice_upto, if_neg hcol]
  exact SplitHostPort_tail_ok _ host port 0 0 _ _ _ (slice_all _) (slice_all _) hport hall1 hall2


/-- An address of the form `[host]:port` splits into the host without brackets and the port. -/
theorem SplitHostPort_bracket (host port : List Char)
    (h2 : '[' ∉ host) (h3 : ']' ∉ host)
    (h4 : ':' ∉ port) (h5 : '[' ∉ port) (h6 : ']' ∉ port) :
    SplitHostPort ('[' :: (host ++ ']' :: ':' :: port)) = some (.ok (host, port)) := by
  have hi : LastIndexByte ('[' :: (host ++ ']' :: ':' :: port)) ':' = (host.length : Int) + 2 := by
    have e : '[' :: (host ++ ']' :: ':' :: port) = ('[' :: (host ++ [']'])) ++ ':' :: port := by
      simp
    rw [e, LastIndexByte_append_cons _ _ _ h4]
    simp only [List.length_cons, List.length_append, List.length_nil]
    push_cast; ring
  have he : IndexByte ('[' :: (host ++ ']' :: ':' :: port)) ']' = (host.length : Int) + 1 := by
    have hn : ']' ∉ '[' :: host := by simp [h3]
    have e : '[' :: (host ++ ']' :: ':' :: port) = ('[' :: host) ++ ']' :: ':' :: port := by
      simp
    rw [e, IndexByte_append_cons _ _ _ hn]
    simp only [List.length_cons]
    push_cast; ring
  have hlt : ¬ ((host.length : Int) + 2 < 0) := by omega
  have hlt2 : ¬ ((host.length : Int) + 1 < 0) := by omega
  have hlen : ¬ ((host.length : Int) + 1 + 1 = len ('[' :: (host ++ ']' :: ':' :: port))) := by
    simp [len]; omega
  have heq : (host.length : Int) + 1 + 1 = (host.length : Int) + 2 := by ring
  have hhost : slice ('[' :: (host ++ ']' :: ':' :: port)) 1 ((host.length : Int) + 1)
      = some host := slice_inner _ _ _
  have hJ : slice ('[' :: (host ++ ']' :: ':' :: port)) 1
      (len ('[' :: (host ++ ']' :: ':' :: port))) = some (host ++ ']' :: ':' :: port) :=
    slice_from_one _ _
  have hK : slice ('[' :: (host ++ ']' :: ':' :: port)) ((host.length : Int) + 1 + 1)
      (len ('[' :: (host ++ ']' :: ':' :: port))) = some (':' :: port) := by
    have e : '[' :: (host ++ ']' :: ':' :: port) = ('[' :: (host ++ [']'])) ++ ':' :: port := by
      simp
    have e2 : (host.length : Int) + 1 + 1 = ((('[' :: (host ++ [']'])).length : Nat) : Int) := by
      simp only [List.length_cons, List.length_append, List.length_nil]
      push_cast; ring
    rw [e, e2]; exact slice_from _ _
  have hP : slice ('[' :: (host ++ ']' :: ':' :: port)) ((host.length : Int) + 2 + 1)
      (len ('[' :: (host ++ ']' :: ':' :: port))) = some port := by
    have e : '[' :: (host ++ ']' :: ':' :: port) = ('[' :: (host ++ [']', ':'])) ++ port := by
      simp
    have e2 : (host.length : Int) + 2 + 1 = ((('[' :: (host ++ [']', ':'])).length : Nat) : Int) := by
      simp only [List.length_cons, List.length_append, List.length_nil]
      push_cast; ring
    rw [e, e2]; exact slice_from _ _
  have hnJ : '[' ∉ host ++ ']' :: ':' :: port := by simp [h2, h5]
  have hnK : ']' ∉ ':' :: port := by simp [h6]
  simp only [SplitHostPort, hi, if_neg hlt, index_zero_cons, Option.some_bind, if_true, he,
    if_neg hlt2, if_neg hlen, if_pos heq, hhost]
  exact SplitHostPort_tail_ok _ host port _ _ _ _ _ hJ hK hP hnJ hnK


/-- The function `net.SplitHostPort` never panics, and whenever it succeeds its argument has one
of the two documented forms. -/
theorem SplitHostPort_inv (s : List Char) :
    ∃ res, SplitHostPort s = some res ∧ ∀ h p, res = .ok (h, p) → HostPortForm s h p := by
  rcases LastIndexByte_cases s ':' with ⟨_, he⟩ | ⟨pre, post, hs, hpost, he⟩
  · refine ⟨.error "missing port in address", ?_, fun h p e => by cases e⟩
    simp [SplitHostPort, he]
  · have hlt : ¬ ((pre.length : Int) < 0) := by omega
    have hport : slice s ((pre.length : Int) + 1) (len s) = some post := by
      have := slice_from (pre ++ [':']) post
      rw [hs]; simpa using this
    have hhost : slice s 0 (pre.length : Int) = some pre := by
      rw [hs]; exact slice_upto _ _
    obtain ⟨c0, tl, hcons⟩ : ∃ c0 tl, s = c0 :: tl := by
      cases s with
      | nil => cases pre <;> simp at hs
      | cons c0 tl => exact ⟨c0, tl, rfl⟩
    have hidx0 : index s 0 = some c0 := by rw [hcons]; exact index_zero_cons _ _
    by_cases hc : c0 = '['
    · subst hc
      rcases IndexByte_cases s ']' with ⟨_, hend⟩ | ⟨p2, q2, hs2, hp2, hend⟩
      · refine ⟨.error "missing ']' in address", ?_, fun h p e => by cases e⟩
        simp [SplitHostPort, he, hlt, hidx0, hend]
      · have hlt2 : ¬ ((p2.length : Int) < 0) := by omega
        by_cases e1 : (p2.length : Int) + 1 = len s
        · refine ⟨.error "missing port in address", ?_, fun h p e => by cases e⟩
          simp only [SplitHostPort, he, if_neg hlt, hidx0, Option.some_bind, if_true, hend,
            if_neg hlt2, if_pos e1]
        · by_cases e2 : (p2.length : Int) + 1 = (pre.length : Int)
          · -- the expected shape: `]` sits just before the last colon
            obtain ⟨host, hp2c⟩ : ∃ host, p2 = '[' :: host := by
              cases p2 with
              | nil =>
                rw [hcons] at hs2
                simp only [List.nil_append] at hs2
                injection hs2 with hh _
                exact absurd hh (by decide)
              | cons d p2 =>
                rw [hcons] at hs2
                simp only [List.cons_append] at hs2
                injection hs2 with hd _
                exact ⟨p2, by rw [hd]⟩
            subst hp2c
            have hlen : pre.length = ('[' :: host ++ [']']).length := by
              simp only [List.length_cons, List.length_append, List.length_nil] at e2 ⊢
              omega
            have hrest2 : pre ++ ':' :: post = ('[' :: host ++ [']']) ++ q2 := by
              rw [← hs, hs2]; simp
            obtain ⟨hpre, hq⟩ := List.append_inj hrest2 hlen
            have hform : s = '[' :: (host ++ ']' :: ':' :: post) := by
              rw [hs2, ← hq]; simp
            have hp2n : ']' ∉ host := fun m => hp2 (List.mem_cons_of_mem _ m)
            have hH : slice s 1 (('[' :: host).length : Int) = some host := by
              rw [hform]
              have := slice_inner '[' host (']' :: ':' :: post)
              simpa using this
            have hJ : slice s 1 (len s) = some (host ++ ']' :: ':' :: post) := by
              rw [hform]; exact slice_from_one _ _
            have hK : slice s ((('[' :: host).length : Int) + 1) (len s) = some (':' :: post) := by
              have e : s = ('[' :: (host ++ [']'])) ++ ':' :: post := by rw [hform]; simp
              have e3 : (('[' :: host).length : Int) + 1
                  = ((('[' :: (host ++ [']'])).length : Nat) : Int) := by
                simp only [List.length_cons, List.length_append, List.length_nil]
                push_cast; ring
              rw [e3]
              conv_lhs => rw [e]
              exact slice_from _ _
            obtain ⟨res, hres, hok⟩ := SplitHostPort_tail_inv s host 1
              ((('[' :: host).length : Int) + 1) (pre.length : Int) _ _ post hJ hK hport
            refine ⟨res, ?_, ?_⟩
            · simp only [SplitHostPort, he, if_neg hlt, hidx0, Option.some_bind, if_true, hend,
                if_neg hlt2, if_neg e1, if_pos e2, hH]
              exact hres
            · intro h p e
              obtain ⟨ea, eb, n1, n2⟩ := hok h p e
              subst ea; subst eb
              refine Or.inr ⟨hform, ?_, hp2n, hpost, ?_, ?_⟩
              · intro m; exact n1 (by simp [m])
              · intro m; exact n1 (by simp [m])
              · intro m; exact n2 (by simp [m])
          · -- `]` is not followed by the last colon
            have hq2 : q2 ≠ [] := by
              intro hq; subst hq
              apply e1
              rw [hs2]; simp [len]
            obtain ⟨d, q3, hq3⟩ := List.exists_cons_of_ne_nil hq2
            subst hq3
            have hidx : index s ((p2.length : Int) + 1) = some d := by
              have hn : (0 : Int) ≤ (p2.length : Int) + 1 := by omega
              have ht : ((p2.length : Int) + 1).toNat = (p2 ++ [']']).length := by
                simp only [List.length_append, List.length_cons, List.length_nil]; omega
              have e : s = (p2 ++ [']']) ++ d :: q3 := by rw [hs2]; simp
              simp only [index, if_pos hn, ht]
              rw [e, List.get?_eq_getElem?, List.getElem?_append_right (le_refl _)]
              simp
            by_cases hd : d = ':'
            · refine ⟨.error "too many colons in address", ?_, fun h p e => by cases e⟩
              simp only [SplitHostPort, he, if_neg hlt, hidx0, Option.some_bind, if_true, hend,
                if_neg hlt2, if_neg e1, if_neg e2, hidx, if_pos hd]
            · refine ⟨.error "missing port in address", ?_, fun h p e => by cases e⟩
              simp only [SplitHostPort, he, if_neg hlt, hidx0, Option.some_bind, if_true, hend,
                if_neg hlt2, if_neg e1, if_neg e2, hidx, if_neg hd]
    · by_cases hcol : ':' ∈ pre
      · have hge : IndexByte pre ':' ≥ 0 := (IndexByte_nonneg_iff _ _).mpr hcol
        refine ⟨.error "too many colons in address", ?_, fun h p e => by cases e⟩
        simp only [SplitHostPort, he, if_neg hlt, hidx0, Option.some_bind, if_neg hc, hhost,
          if_pos hge]
      · have hge : ¬ IndexByte pre ':' ≥ 0 := by
          rw [IndexByte_nonneg_iff]; exact hcol
        obtain ⟨res, hres, hok⟩ := SplitHostPort_tail_inv s pre
          0 0 (pre.length : Int) _ _ post (slice_all _) (slice_all _) hport
        refine ⟨res, ?_, ?_⟩
        · simp only [SplitHostPort, he, if_neg hlt, hidx0, Option.some_bind, if_neg hc, hhost,
            if_neg hge]
          exact hres
        · intro h p e
          obtain ⟨ea, eb, n1, n2⟩ := hok h p e
          subst ea; subst eb
          refine Or.inl ⟨hs, hcol, ?_, ?_, hpost, ?_, ?_⟩
          · intro m; exact n1 (hs ▸ List.mem_append_left _ m)
          · intro m; exact n2 (hs ▸ List.mem_append_left _ m)
          · intro m; exact n1 (hs ▸ List.mem_append_right _ (List.mem_cons_of_mem _ m))
          · intro m; exact n2 (hs ▸ List.mem_append_right _ (List.mem_cons_of_mem _ m))

end Go.net

namespace Go.strings

theorem dropWhile_split (p : Char → Bool) (s : List Char) :
    ∃ l, s = l ++ s.dropWhile p ∧ (∀ c ∈ l, p c = true) ∧
      ∀ c, (s.dropWhile p).head? = some c → p c = false := by
  induction s with
  | nil => exact ⟨[], by simp⟩
  | cons a s ih =>
    by_cases h : p a = true
    · obtain ⟨l, e, hl, hh⟩ := ih
      refine ⟨a :: l, ?_, ?_, ?_⟩
      · simp only [List.dropWhile_cons, h, if_true, List.cons_append]
        rw [← e]
      · intro c hc
        rcases List.mem_cons.mp hc with rfl | hc
        · exact h
        · exact hl c hc
      · simpa only [List.dropWhile_cons, h, if_true] using hh
    · refine ⟨[], ?_, by simp, ?_⟩
      · simp [List.dropWhile_cons, h]
      · intro c hc
        simp only [List.dropWhile_cons, h] at hc
        simp only [List.head?_cons, Option.some.injEq, Bool.false_eq_true, if_false] at hc
        subst hc
        simpa using h

theorem head?_dropWhile_reverse (p : Char → Bool) (s : List Char) (c : Char)
    (hs : ∀ c, s.head? = some c → p c = false)
    (hc : ((s.reverse.dropWhile p).reverse).head? = some c) : p c = false := by
  obtain ⟨l, e, _, _⟩ := dropWhile_split p s.reverse
  have e2 : s = (s.reverse.dropWhile p).reverse ++ l.reverse := by
    have := congrArg List.reverse e
    simpa using this
  cases hd : (s.reverse.dropWhile p).reverse with
  | nil => rw [hd] at hc; simp at hc
  | cons a t =>
    rw [hd] at hc e2
    simp only [List.head?_cons, Option.some.injEq] at hc
    subst hc
    apply hs
    rw [e2]; rfl

/-- The list `trimChars s` is `s` with the surrounding white space trimmed. -/
theorem trimChars_isTrim (s : List Char) : IsTrimOf (trimChars s) s := by
  obtain ⟨l, e1, hl, hh⟩ := dropWhile_split unicode.IsSpace s
  obtain ⟨r, e2, hr, hh2⟩ := dropWhile_split unicode.IsSpace (s.dropWhile unicode.IsSpace).reverse
  have e3 : s.dropWhile unicode.IsSpace = trimChars s ++ r.reverse := by
    have := congrArg List.reverse e2
    simpa [trimChars] using this
  refine ⟨⟨l, r.reverse, ?_, hl, ?_⟩, ?_, ?_⟩
  · rw [List.append_assoc, ← e3]; exact e1
  · intro c hc; exact hr c (List.mem_reverse.mp hc)
  · intro c hc
    exact head?_dropWhile_reverse unicode.IsSpace _ c hh hc
  · intro c hc
    apply hh2
    simpa [trimChars, List.getLast?_reverse] using hc

end Go.strings

/-! ## Facts about percent-encoding and the segments of a path -/

namespace Go

theorem Char.toNat_lt_max (c : Char) : c.toNat < 0x110000 := by
  have h := c.valid
  simp only [UInt32.isValidChar, Nat.isValidChar] at h
  have e : c.toNat = c.val.toNat := rfl
  omega

theorem Char.eq_of_toNat_eq (c d : Char) (h : c.toNat = d.toNat) : c = d := by
  rw [← Char.ofNat_toNat c, ← Char.ofNat_toNat d, h]

theorem EncodeRune_lt (c : Char) : ∀ b ∈ utf8.EncodeRune c, b < 256 := by
  have h := Char.toNat_lt_max c
  intro b hb
  simp only [utf8.EncodeRune] at hb
  split at hb
  · simp at hb; omega
  · split at hb
    · simp at hb; omega
    · split at hb
      · simp at hb; omega
      · simp at hb; omega

theorem EncodeRune_ascii (c : Char) (h : c.toNat < 0x80) : utf8.EncodeRune c = [c.toNat] := by
  simp [utf8.EncodeRune, h]

theorem EncodeRune_head (c : Char) :
    ∃ b t, utf8.EncodeRune c = b :: t ∧ (b < 0x80 → c.toNat = b ∧ t = []) := by
  simp only [utf8.EncodeRune]
  split
  · exact ⟨_, _, rfl, fun _ => ⟨rfl, rfl⟩⟩
  · split
    · exact ⟨_, _, rfl, fun hb => by omega⟩
    · split
      · exact ⟨_, _, rfl, fun hb => by omega⟩
      · exact ⟨_, _, rfl, fun hb => by omega⟩

/-- A text that has the bytes of an ASCII text is that text. -/
theorem bytes_ascii_injective (q : List Char) (hq : ∀ c ∈ q, c.toNat < 0x80) :
    ∀ p : List Char, bytes p = bytes q → p = q := by
  induction q with
  | nil =>
    intro p hp
    cases p with
    | nil => rfl
    | cons c p =>
      obtain ⟨b, t, e, _⟩ := EncodeRune_head c
      simp [bytes, e] at hp
  | cons d q ih =>
    intro p hp
    have hd : d.toNat < 0x80 := hq d (List.mem_cons_self _ _)
    have hq2 : ∀ c ∈ q, c.toNat < 0x80 := fun c hc => hq c (List.mem_cons_of_mem _ hc)
    cases p with
    | nil =>
      simp [bytes, EncodeRune_ascii d hd] at hp
    | cons c p =>
      obtain ⟨b, t, e, hb⟩ := EncodeRune_head c
      simp only [bytes, List.flatMap_cons, e, EncodeRune_ascii d hd, List.cons_append,
        List.nil_append, List.cons.injEq] at hp
      obtain ⟨hbd, hrest⟩ := hp
      obtain ⟨hc, ht⟩ := hb (by omega)
      subst ht
      have hcd : c = d := Char.eq_of_toNat_eq c d (by omega)
      rw [hcd, ih hq2 p (by simpa [bytes] using hrest)]

end Go

namespace Go.url

theorem hex_roundtrip : ∀ n, n < 16 → ishex (upperhex n) = true ∧ unhex (upperhex n) = n := by
  decide

theorem unescape_literal (c : Char) (rest : List Char) (h : c ≠ '%') :
    unescape (c :: rest) = (unescape rest).map fun t => utf8.EncodeRune c ++ t := by
  rcases rest with _ | ⟨a, _ | ⟨b, rest2⟩⟩ <;> simp [unescape, h]

theorem unescape_percent (b : Nat) (rest : List Char) (h : b < 256) :
    unescape (percent b ++ rest) = (unescape rest).map fun t => b :: t := by
  have h1 := hex_roundtrip (b / 16) (by omega)
  have h2 := hex_roundtrip (b % 16) (by omega)
  have e : unhex (upperhex (b / 16)) * 16 + unhex (upperhex (b % 16)) = b := by
    rw [h1.2, h2.2]; omega
  have hh : ishex (upperhex (b / 16)) = true ∧ ishex (upperhex (b % 16)) = true := ⟨h1.1, h2.1⟩
  simp only [percent, List.cons_append, List.nil_append]
  simp only [unescape, if_true, if_pos hh, e]

theorem unescape_percents (bs : List Nat) (rest : List Char) (h : ∀ b ∈ bs, b < 256) :
    unescape (bs.flatMap percent ++ rest) = (unescape rest).map fun t => bs ++ t := by
  induction bs with
  | nil => simp
  | cons b bs ih =>
    have hb : b < 256 := h b (List.mem_cons_self _ _)
    have hbs : ∀ x ∈ bs, x < 256 := fun x hx => h x (List.mem_cons_of_mem _ hx)
    rw [List.flatMap_cons, List.append_assoc, unescape_percent b _ hb, ih hbs]
    cases unescape rest <;> simp

theorem shouldEscape_percent : shouldEscape '%' = true := by decide

/-- Unescaping the default encoding of a text gives back its bytes. -/
theorem unescape_escape (s : List Char) : unescape (escape s) = some (bytes s) := by
  induction s with
  | nil => rfl
  | cons c s ih =>
    have hstep : escape (c :: s)
        = (if shouldEscape c then (utf8.EncodeRune c).flatMap percent else [c]) ++ escape s := by
      simp [escape]
    rw [hstep]
    by_cases hc : shouldEscape c = true
    · rw [if_pos hc, unescape_percents _ _ (EncodeRune_lt c), ih]
      simp [bytes]
    · have hne : c ≠ '%' := by
        intro e; apply hc; rw [e]; exact shouldEscape_percent
      rw [if_neg hc]
      simp only [List.singleton_append]
      rw [unescape_literal c _ hne, ih]
      simp [bytes]

theorem unescape_rooted (s : List Char) :
    unescape ('/' :: s) = (unescape s).map fun t => 47 :: t := by
  rw [unescape_literal '/' s (by decide)]
  have e : utf8.EncodeRune '/' = [47] := by decide
  rw [e]
  rfl

end Go.url

namespace Go.url

theorem unescape_slash_bounded (n : Nat) :
    ∀ s : List Char, s.length ≤ n → ∀ bs, unescape s = some bs → '/' ∈ s → 47 ∈ bs := by
  induction n with
  | zero =>
    intro s hs bs _ hm
    have : s = [] := List.length_eq_zero.mp (by omega)
    subst this
    simp at hm
  | succ n ih =>
    intro s hs bs hu hm
    cases s with
    | nil => simp at hm
    | cons c rest =>
      by_cases hc : c = '%'
      · subst hc
        rcases rest with _ | ⟨a, _ | ⟨b, rest2⟩⟩
        · simp [unescape] at hu
        · simp [unescape] at hu
        · simp only [unescape, if_true] at hu
          by_cases hh : ishex a = true ∧ ishex b = true
          · rw [if_pos hh] at hu
            cases hr : unescape rest2 with
            | none => rw [hr] at hu; simp at hu
            | some t =>
              rw [hr] at hu
              simp only [Option.map_some', Option.some.injEq] at hu
              have ha : a ≠ '/' := by intro e; rw [e] at hh; exact absurd hh.1 (by decide)
              have hb : b ≠ '/' := by intro e; rw [e] at hh; exact absurd hh.2 (by decide)
              have hm2 : '/' ∈ rest2 := by
                simp only [List.mem_cons] at hm
                rcases hm with h | h | h | h
                · exact absurd h (by decide)
                · exact absurd h.symm ha
                · exact absurd h.symm hb
                · exact h
              have := ih rest2 (by simp at hs; omega) t hr hm2
              rw [← hu]
              exact List.mem_cons_of_mem _ this
          · rw [if_neg hh] at hu; simp at hu
      · rw [unescape_literal c rest hc] at hu
        cases hr : unescape rest with
        | none => rw [hr] at hu; simp at hu
        | some t =>
          rw [hr] at hu
          simp only [Option.map_some', Option.some.injEq] at hu
          rw [← hu]
          rcases List.mem_cons.mp hm with h | h
          · have e : utf8.EncodeRune c = [47] := by rw [← h]; decide
            rw [e]; simp
          · exact List.mem_append_right _ (ih rest (by simp at hs; omega) t hr h)

/-- A literal slash in an escaped text is a slash of the decoded text. -/
theorem unescape_slash (s : List Char) (bs : List Nat) (hu : unescape s = some bs)
    (hm : '/' ∈ s) : 47 ∈ bs :=
  unescape_slash_bounded s.length s (le_refl _) bs hu hm

end Go.url

namespace Go.http

theorem pathElems_ne_nil (s : List Char) : pathElems s ≠ [] := by
  cases s with
  | nil => simp [pathElems]
  | cons c cs =>
    simp only [pathElems]
    cases pathElems cs with
    | nil => simp
    | cons e es => by_cases h : c = '/' <;> simp [h]

theorem pathElems_singleton (s e : List Char) (h : pathElems s = [e]) : '/' ∉ s ∧ e = s := by
  induction s generalizing e with
  | nil =>
    simp only [pathElems, List.cons.injEq, and_true] at h
    exact ⟨by simp, h.symm⟩
  | cons c cs ih =>
    simp only [pathElems] at h
    cases hp : pathElems cs with
    | nil => exact absurd hp (pathElems_ne_nil cs)
    | cons e1 es =>
      rw [hp] at h
      by_cases hc : c = '/'
      · simp [hc] at h
      · simp only [if_neg hc, List.cons.injEq] at h
        obtain ⟨he, hes⟩ := h
        subst hes
        obtain ⟨hn, he1⟩ := ih e1 hp
        refine ⟨?_, ?_⟩
        · intro hm
          rcases List.mem_cons.mp hm with h | h
          · exact hc h.symm
          · exact hn h
        · rw [← he, he1]

theorem pathElems_no_slash (s : List Char) (h : '/' ∉ s) : pathElems s = [s] := by
  induction s with
  | nil => rfl
  | cons c cs ih =>
    have hc : c ≠ '/' := fun e => h (e ▸ List.mem_cons_self _ _)
    have hcs : '/' ∉ cs := fun m => h (List.mem_cons_of_mem _ m)
    simp [pathElems, ih hcs, hc]

theorem laterSegments_eq_nil (es : List (List Char)) (h : laterSegments es = []) : es = [] := by
  rcases es with _ | ⟨e, _ | ⟨e2, es⟩⟩
  · rfl
  · simp [laterSegments] at h
  · simp [laterSegments] at h

theorem bytes_rooted (lit : List Char) : bytes ('/' :: lit) = 47 :: bytes lit := by
  have e : utf8.EncodeRune '/' = [47] := by decide
  simp [bytes, e]

/-- When the escaped path is empty or rooted and decodes to the path `P`, its segments are the
one segment `lit` exactly when `P` is `/lit`, for an ASCII text `lit` without a slash. -/
theorem requestSegments_single (ep P lit : List Char)
    (hroot : ep = [] ∨ ∃ s, ep = '/' :: s)
    (hun : url.unescape ep = some (bytes P))
    (hlit : ∀ c ∈ lit, c.toNat < 0x80) (hns : 47 ∉ bytes lit) (hne : bytes lit ≠ []) :
    requestSegments ep = [bytes lit] ↔ P = '/' :: lit := by
  have hascii : ∀ c ∈ '/' :: lit, c.toNat < 0x80 := by
    intro c hc
    rcases List.mem_cons.mp hc with h | h
    · rw [h]; decide
    · exact hlit c h
  rcases hroot with he | ⟨s, he⟩
  · subst he
    constructor
    · intro h; simp [requestSegments] at h
    · intro h
      subst h
      simp only [url.unescape, Option.some.injEq] at hun
      rw [bytes_rooted] at hun
      exact absurd hun (by simp)
  · subst he
    rw [url.unescape_rooted] at hun
    cases hs : url.unescape s with
    | none => rw [hs] at hun; simp at hun
    | some bs =>
      rw [hs] at hun
      simp only [Option.map_some', Option.some.injEq] at hun
      have hpu : pathUnescape s = bs := by simp [pathUnescape, hs]
      constructor
      · intro h
        cases s with
        | nil =>
          simp only [requestSegments, if_true, List.cons.injEq, and_true] at h
          have e : bytes ['/'] = [47] := by decide
          rw [e] at h
          exact absurd (h ▸ List.mem_cons_self 47 []) hns
        | cons c t =>
          simp only [requestSegments] at h
          cases hp : pathElems (c :: t) with
          | nil => exact absurd hp (pathElems_ne_nil _)
          | cons e es =>
            rw [hp] at h
            simp only [List.cons.injEq] at h
            obtain ⟨h1, h2⟩ := h
            have hes := laterSegments_eq_nil es h2
            subst hes
            obtain ⟨_, hes2⟩ := pathElems_singleton _ _ hp
            subst hes2
            rw [hpu] at h1
            apply bytes_ascii_injective ('/' :: lit) hascii
            rw [← hun, bytes_rooted, h1]
      · intro h
        subst h
        rw [bytes_rooted] at hun
        simp only [List.cons.injEq, true_and] at hun
        subst hun
        have hns2 : '/' ∉ s := fun hm => hns (url.unescape_slash s _ hs hm)
        cases s with
        | nil =>
          simp only [url.unescape, Option.some.injEq] at hs
          exact absurd hs.symm hne
        | cons c t =>
          simp only [requestSegments, pathElems_no_slash _ hns2, laterSegments, hpu]

theorem cleanPath_rooted (p : String) : ∃ s, (cleanPath p).data = '/' :: s := by
  unfold cleanPath
  split
  · exact ⟨[], rfl⟩
  · simp only [Clean]
    split <;> split <;> exact ⟨_, rfl⟩

/-- The escaped path of a URL decodes to its path. -/
theorem EscapedPath_unescape (u : URL) :
    url.unescape u.EscapedPath.data = some (bytes u.Path.data) := by
  unfold URL.EscapedPath
  split
  · rename_i h; exact h.2.2
  · split
    · rename_i h; rw [h]; decide
    · exact url.unescape_escape _

end Go.http

namespace server

open Go Go.http Go.httptest

/-! ## The client address: claims C1 to C3 -/

theorem cut_at_comma (s : List Char) :
    (strings.IndexChars s [','] = -1 ∧ s.takeWhile (fun c => c != ',') = s) ∨
    (strings.IndexChars s [','] ≠ -1 ∧
      slice s 0 (strings.IndexChars s [',']) = some (s.takeWhile (fun c => c != ','))) := by
  rw [strings.IndexChars_single]
  rcases IndexByte_cases s ',' with ⟨hn, he⟩ | ⟨pre, post, hs, hpre, he⟩
  · exact Or.inl ⟨he, takeWhile_ne_of_not_mem s ',' hn⟩
  · right
    rw [he]
    refine ⟨by omega, ?_⟩
    rw [hs, takeWhile_ne_append_cons pre post ',' hpre]
    exact slice_upto _ _

/-- C1. When the `X-Forwarded-For` header is not empty, `getClientIP` returns the part of its
value before the first comma (the whole value when there is no comma) with the surrounding white
space trimmed, whatever `X-Real-IP` and `RemoteAddr` hold. -/
theorem getClientIP_forwardedFor (r : Request) (h : r.Header.Get "X-Forwarded-For" ≠ "") :
    getClientIP r = some (strings.TrimSpace
        ⟨(r.Header.Get "X-Forwarded-For").data.takeWhile (fun c => c != ',')⟩) ∧
      ∀ ip, getClientIP r = some ip →
        strings.IsTrimOf ip.data ((r.Header.Get "X-Forwarded-For").data.takeWhile (fun c => c != ',')) := by
  have key : getClientIP r = some (strings.TrimSpace
        ⟨(r.Header.Get "X-Forwarded-For").data.takeWhile (fun c => c != ',')⟩) := by
    have hc := cut_at_comma (r.Header.Get "X-Forwarded-For").data
    have hcomma : (",":String).data = [','] := rfl
    simp only [getClientIP, if_pos h, strings.Index, hcomma]
    rcases hc with ⟨e, tw⟩ | ⟨e, sl⟩
    · simp only [e, ne_eq, not_true_eq_false, if_false, tw]
    · simp only [ne_eq, e, not_false_eq_true, if_true, sl, Option.map_some']
  refine ⟨key, ?_⟩
  intro ip hip
  rw [key] at hip
  injection hip with hip
  subst hip
  exact strings.trimChars_isTrim _

/-- C1, on the header of the test suite: of `192.168.1.100, 10.0.0.1, 172.16.0.1` the first
address is returned although `X-Real-IP` is set as well. -/
theorem getClientIP_forwardedFor_witness :
    (requestFrom (some "192.168.1.100, 10.0.0.1, 172.16.0.1") (some "203.0.113.1")
        "10.0.0.1:12345").Header.Get "X-Forwarded-For" ≠ "" ∧
      getClientIP (requestFrom (some "192.168.1.100, 10.0.0.1, 172.16.0.1") (some "203.0.113.1")
        "10.0.0.1:12345") = some "192.168.1.100" :=
  ⟨by decide, (getClientIP_forwardedFor _ (by decide)).1.trans (by decide)⟩

/-- C2. When `X-Forwarded-For` is absent or empty and `X-Real-IP` is not empty, `getClientIP`
returns the `X-Real-IP` value with the surrounding white space trimmed, whatever `RemoteAddr`
holds. -/
theorem getClientIP_realIP (r : Request) (hxff : r.Header.Get "X-Forwarded-For" = "")
    (hxri : r.Header.Get "X-Real-IP" ≠ "") :
    getClientIP r = some (strings.TrimSpace (r.Header.Get "X-Real-IP")) ∧
      ∀ ip, getClientIP r = some ip →
        strings.IsTrimOf ip.data (r.Header.Get "X-Real-IP").data := by
  have key : getClientIP r = some (strings.TrimSpace (r.Header.Get "X-Real-IP")) := by
    simp only [getClientIP, hxff, ne_eq, not_true_eq_false, if_false]
    rw [if_pos hxri]
  refine ⟨key, ?_⟩
  intro ip hip
  rw [key] at hip
  injection hip with hip
  subst hip
  exact strings.trimChars_isTrim _

/-- C2, on a header with blanks around the address. -/
theorem getClientIP_realIP_witness :
    (requestFrom none (some " 203.0.113.1 ") "10.0.0.1:12345").Header.Get "X-Forwarded-For" = "" ∧
      (requestFrom none (some " 203.0.113.1 ") "10.0.0.1:12345").Header.Get "X-Real-IP" ≠ "" ∧
      getClientIP (requestFrom none (some " 203.0.113.1 ") "10.0.0.1:12345")
        = some "203.0.113.1" :=
  ⟨by decide, by decide, (getClientIP_realIP _ (by decide) (by decide)).1.trans (by decide)⟩


theorem HostPortForm_colon_mem (addr host port : List Char) (h : net.HostPortForm addr host port) :
    ':' ∈ addr := by
  rcases h with ⟨e, _⟩ | ⟨e, _⟩ <;> rw [e] <;> simp

theorem SplitHostPort_of_form (addr host port : List Char) (h : net.HostPortForm addr host port) :
    net.SplitHostPort addr = some (.ok (host, port)) := by
  rcases h with ⟨e, h1, h2, h3, h4, h5, h6⟩ | ⟨e, h2, h3, h4, h5, h6⟩
  · rw [e]; exact net.SplitHostPort_plain host port h1 h2 h3 h4 h5 h6
  · rw [e]; exact net.SplitHostPort_bracket host port h2 h3 h4 h5 h6

theorem getClientIP_total (r : Request) : ∃ ip, getClientIP r = some ip := by
  by_cases hxff : r.Header.Get "X-Forwarded-For" = ""
  · by_cases hxri : r.Header.Get "X-Real-IP" = ""
    · obtain ⟨res, hres, _⟩ := net.SplitHostPort_inv r.RemoteAddr.data
      simp only [getClientIP, hxff, hxri, ne_eq, not_true_eq_false, if_false, hres]
      cases res with
      | error e => exact ⟨_, rfl⟩
      | ok hp => exact ⟨_, rfl⟩
    · refine ⟨strings.TrimSpace (r.Header.Get "X-Real-IP"), ?_⟩
      simp only [getClientIP, hxff, ne_eq, not_true_eq_false, if_false]
      rw [if_pos hxri]
  · have hc := cut_at_comma (r.Header.Get "X-Forwarded-For").data
    have hcomma : (",":String).data = [','] := rfl
    simp only [getClientIP, ne_eq, hxff, not_false_eq_true, if_true, strings.Index, hcomma]
    rcases hc with ⟨e, _⟩ | ⟨e, sl⟩
    · simp only [e, not_true_eq_false, if_false]; exact ⟨_, rfl⟩
    · simp only [e, not_false_eq_true, if_true, sl, Option.map_some']; exact ⟨_, rfl⟩

/-- C3. `getClientIP` returns on every request.  When neither `X-Forwarded-For` nor `X-Real-IP`
is set, it returns the host of `RemoteAddr` when that has the form `host:port` or `[host]:port`
(the brackets of the IPv6 literal removed), and `RemoteAddr` unchanged when it has neither
form. -/
theorem getClientIP_remoteAddr (r : Request) :
    (∃ ip, getClientIP r = some ip) ∧
    (r.Header.Get "X-Forwarded-For" = "" → r.Header.Get "X-Real-IP" = "" →
      (∀ host port, net.HostPortForm r.RemoteAddr.data host port →
        getClientIP r = some ⟨host⟩) ∧
      ((¬ ∃ host port, net.HostPortForm r.RemoteAddr.data host port) →
        getClientIP r = some r.RemoteAddr)) := by
  refine ⟨getClientIP_total r, ?_⟩
  intro hxff hxri
  constructor
  · intro host port hf
    simp only [getClientIP, hxff, hxri, ne_eq, not_true_eq_false, if_false,
      SplitHostPort_of_form _ host port hf]
  · intro hno
    obtain ⟨res, hres, hform⟩ := net.SplitHostPort_inv r.RemoteAddr.data
    simp only [getClientIP, hxff, hxri, ne_eq, not_true_eq_false, if_false, hres]
    cases res with
    | error e => rfl
    | ok hp =>
      obtain ⟨host, port⟩ := hp
      exact absurd ⟨host, port, hform host port rfl⟩ hno

/-- C3, on the three remote addresses of the test suite: an IPv4 address with a port, a
bracketed IPv6 address with a port, and an address without a port. -/
theorem getClientIP_remoteAddr_witness :
    getClientIP (requestFrom none none "10.0.0.1:12345") = some "10.0.0.1" ∧
    getClientIP (requestFrom none none "[2001:db8::1]:12345") = some "2001:db8::1" ∧
    getClientIP (requestFrom none none "10.0.0.1") = some "10.0.0.1" := by
  refine ⟨?_, ?_, ?_⟩
  · exact ((getClientIP_remoteAddr (requestFrom none none "10.0.0.1:12345")).2
      (by decide) (by decide)).1 "10.0.0.1".data "12345".data
      (Or.inl ⟨by decide, by decide, by decide, by decide, by decide, by decide, by decide⟩)
  · exact ((getClientIP_remoteAddr (requestFrom none none "[2001:db8::1]:12345")).2
      (by decide) (by decide)).1 "2001:db8::1".data "12345".data
      (Or.inr ⟨by decide, by decide, by decide, by decide, by decide, by decide⟩)
  · refine ((getClientIP_remoteAddr (requestFrom none none "10.0.0.1")).2
      (by decide) (by decide)).2 ?_
    rintro ⟨host, port, hf⟩
    have hm := HostPortForm_colon_mem _ host port hf
    revert hm
    decide


/-! ## The two route handlers: claims C4 to C6 -/

theorem Header.Get_Set (h : Header) (key value : String) : (h.Set key value).Get key = value := by
  simp [Header.Get, Header.Set]

/-- C4. On a request whose method is not `GET`, `healthCheckHandler` and `helloWorldHandler`
each answer a recorder that has sent nothing yet with status 405 and write no body byte, whatever
the configured message. -/
theorem handlers_reject_non_GET (lib : Lib) (s : Server) (r : Request) (w : ResponseRecorder)
    (log : List String) (hm : r.Method ≠ "GET") (hw : w.wroteHeader = false) :
    (∃ w1, (s.healthCheckHandler r).run (ResponseRecorder.writer lib) (w, log) = some (w1, log) ∧
        w1.Result.StatusCode = 405 ∧ w1.Result.Body = w.Body) ∧
    (∃ w1, (s.helloWorldHandler r).run (ResponseRecorder.writer lib) (w, log) = some (w1, log) ∧
        w1.Result.StatusCode = 405 ∧ w1.Result.Body = w.Body) := by
  have hm2 : r.Method ≠ MethodGet := hm
  constructor
  · refine ⟨{ w with Code := 405, wroteHeader := true, snapHeader := some w.HeaderMap }, ?_, ?_, rfl⟩
    · simp [Server.healthCheckHandler, hm2, Prog.run, ResponseRecorder.writer,
        ResponseRecorder.WriteHeader, hw, StatusMethodNotAllowed]
    · simp [ResponseRecorder.Result]
  · refine ⟨{ w with Code := 405, wroteHeader := true, snapHeader := some w.HeaderMap }, ?_, ?_, rfl⟩
    · simp [Server.helloWorldHandler, hm2, Prog.run, ResponseRecorder.writer,
        ResponseRecorder.WriteHeader, hw, StatusMethodNotAllowed]
    · simp [ResponseRecorder.Result]

/-- C4, on a `POST` request and a new recorder: status 405 and an empty body from both
handlers. -/
theorem handlers_reject_non_GET_witness :
    (NewRequest "POST" "/hello-world").Method ≠ "GET" ∧
    (∃ w1, ((NewServer "Hello, World!").healthCheckHandler (NewRequest "POST" "/hello-world")).run
          (ResponseRecorder.writer Lib.sample) (NewRecorder, []) = some (w1, []) ∧
        w1.Result.StatusCode = 405 ∧ w1.Result.Body = "") ∧
    (∃ w1, ((NewServer "Hello, World!").helloWorldHandler (NewRequest "POST" "/hello-world")).run
          (ResponseRecorder.writer Lib.sample) (NewRecorder, []) = some (w1, []) ∧
        w1.Result.StatusCode = 405 ∧ w1.Result.Body = "") :=
  ⟨by decide,
    handlers_reject_non_GET Lib.sample (NewServer "Hello, World!") (NewRequest "POST" "/hello-world")
      NewRecorder [] (by decide) rfl⟩

/-- C5, as the code has it. On a `GET` request `healthCheckHandler` answers a recorder that has
sent nothing yet with status 200 and content type `application/json`, and writes the 15
characters of the JSON object followed by one newline, 16 characters in all. -/
theorem healthCheck_GET (lib : Lib) (s : Server) (r : Request) (w : ResponseRecorder)
    (log : List String) (hm : r.Method = "GET") (hw : w.wroteHeader = false) :
    ∃ w1, (s.healthCheckHandler r).run (ResponseRecorder.writer lib) (w, log) = some (w1, log) ∧
      w1.Result.StatusCode = 200 ∧
      w1.Result.Header.Get "Content-Type" = "application/json" ∧
      w1.Result.Body = w.Body ++ "\x7b\"status\":\"ok\"\x7d\n" ∧
      ("\x7b\"status\":\"ok\"\x7d\n" : String).length = 16 := by
  have hm2 : ¬ r.Method ≠ MethodGet := fun h => h hm
  have henc : healthCheckResponse.Encode { Status := "ok" } = "\x7b\"status\":\"ok\"\x7d\n" := by
    decide
  refine ⟨{ w with
              Code := 200
              wroteHeader := true
              HeaderMap := w.HeaderMap.Set "Content-Type" "application/json"
              snapHeader := some (w.HeaderMap.Set "Content-Type" "application/json")
              Body := w.Body ++ "\x7b\"status\":\"ok\"\x7d\n" }, ?_, ?_, ?_, rfl, by decide⟩
  · simp [Server.healthCheckHandler, hm2, Prog.run, ResponseRecorder.writer,
      ResponseRecorder.WriteHeader, ResponseRecorder.Write, ResponseRecorder.writeHeader, hw,
      StatusOK, henc]
  · simp [ResponseRecorder.Result]
  · simp [ResponseRecorder.Result, Header.Get_Set]

/-- C5, on the request of the test suite and a new recorder. -/
theorem healthCheck_GET_witness :
    ∃ w1, ((NewServer "Hello, World!").healthCheckHandler (NewRequest "GET" "/health-check")).run
        (ResponseRecorder.writer Lib.sample) (NewRecorder, []) = some (w1, []) ∧
      w1.Result.StatusCode = 200 ∧
      w1.Result.Header.Get "Content-Type" = "application/json" ∧
      w1.Result.Body = "" ++ "\x7b\"status\":\"ok\"\x7d\n" ∧
      ("\x7b\"status\":\"ok\"\x7d\n" : String).length = 16 :=
  healthCheck_GET Lib.sample (NewServer "Hello, World!") (NewRequest "GET" "/health-check")
    NewRecorder [] rfl rfl

/-- C5 as stated fails: on a `GET` request and a new recorder the body is not the 15 characters
of the JSON object alone, a newline follows them. -/
theorem healthCheck_GET_body_not_bare :
    (((NewServer "Hello, World!").healthCheckHandler (NewRequest "GET" "/health-check")).run
        (ResponseRecorder.writer Lib.sample) (NewRecorder, [])).map (fun st => st.1.Result.Body)
      = some "\x7b\"status\":\"ok\"\x7d\n" ∧
    ("\x7b\"status\":\"ok\"\x7d\n" : String) ≠ "\x7b\"status\":\"ok\"\x7d" := by
  decide

/-- C6. For every configured message `m`, the empty one included, on a `GET` request
`helloWorldHandler` answers a recorder that has sent nothing yet with status 200 and content type
`text/plain`, and writes `m` followed by one newline. -/
theorem helloWorld_GET (lib : Lib) (s : Server) (r : Request) (w : ResponseRecorder)
    (log : List String) (hm : r.Method = "GET") (hw : w.wroteHeader = false) :
    ∃ w1, (s.helloWorldHandler r).run (ResponseRecorder.writer lib) (w, log) = some (w1, log) ∧
      w1.Result.StatusCode = 200 ∧
      w1.Result.Header.Get "Content-Type" = "text/plain" ∧
      w1.Result.Body = w.Body ++ (s.message ++ "\n") := by
  have hm2 : ¬ r.Method ≠ MethodGet := fun h => h hm
  refine ⟨{ w with
              Code := 200
              wroteHeader := true
              HeaderMap := w.HeaderMap.Set "Content-Type" "text/plain"
              snapHeader := some (w.HeaderMap.Set "Content-Type" "text/plain")
              Body := w.Body ++ (s.message ++ "\n") }, ?_, ?_, ?_, rfl⟩
  · simp [Server.helloWorldHandler, hm2, Prog.run, ResponseRecorder.writer,
      ResponseRecorder.WriteHeader, ResponseRecorder.Write, ResponseRecorder.writeHeader, hw,
      StatusOK]
  · simp [ResponseRecorder.Result]
  · simp [ResponseRecorder.Result, Header.Get_Set]

/-- C6, on the message of the test suite and, through the server, on the empty message. -/
theorem helloWorld_GET_witness :
    (∃ w1, ((NewServer "Hello, World!").helloWorldHandler (NewRequest "GET" "/hello-world")).run
        (ResponseRecorder.writer Lib.sample) (NewRecorder, []) = some (w1, []) ∧
      w1.Result.StatusCode = 200 ∧
      w1.Result.Header.Get "Content-Type" = "text/plain" ∧
      w1.Result.Body = "" ++ ((NewServer "Hello, World!").message ++ "\n")) ∧
    (NewServer "Hello, World!").message ++ "\n" = "Hello, World!\n" :=
  ⟨helloWorld_GET Lib.sample (NewServer "Hello, World!") (NewRequest "GET" "/hello-world")
    NewRecorder [] rfl rfl, by decide⟩


/-! ## The dispatcher: claim C7 -/

theorem NewServer_handlerFor (m path : String) :
    (NewServer m).mux.handlerFor path =
      if requestSegments path.data = [bytes "health-check".data] then
        (NewServer m).logMiddleware (NewServer m).healthCheckHandler
      else if requestSegments path.data = [bytes "hello-world".data] then
        (NewServer m).logMiddleware (NewServer m).helloWorldHandler
      else NotFound.toHandler := by
  have p1 : patternSegments "/health-check" = [bytes "health-check".data] := by decide
  have p2 : patternSegments "/hello-world" = [bytes "hello-world".data] := by decide
  simp only [NewServer, Server.routes, ServeMux.Handle, NewServeMux, ServeMux.handlerFor,
    List.nil_append, List.singleton_append, List.find?, p1, p2]
  by_cases h1 : requestSegments path.data = [bytes "health-check".data]
  · have h1b : decide ([bytes "health-check".data] = requestSegments path.data) = true := by
      simp [h1]
    simp only [h1b, if_pos h1]
    rfl
  · have h1b : decide ([bytes "health-check".data] = requestSegments path.data) = false := by
      simpa using fun e : [bytes "health-check".data] = requestSegments path.data => h1 e.symm
    by_cases h2 : requestSegments path.data = [bytes "hello-world".data]
    · have h2b : decide ([bytes "hello-world".data] = requestSegments path.data) = true := by
        simp [h2]
      simp only [h1b, h2b, if_neg h1, if_pos h2]
      rfl
    · have h2b : decide ([bytes "hello-world".data] = requestSegments path.data) = false := by
        simpa using fun e : [bytes "hello-world".data] = requestSegments path.data => h2 e.symm
      simp only [h1b, h2b, if_neg h1, if_neg h2]

/-- When the escaped path of a request is empty or begins with a slash, the match of the
routing tree is decided by the path: the health-check handler for `/health-check`, the greeting
handler for `/hello-world`, `NotFoundHandler()` for any other path. -/
theorem NewServer_handlerFor_escaped (m : String) (r : Request)
    (hroot : r.URL.EscapedPath.data = [] ∨ ∃ s, r.URL.EscapedPath.data = '/' :: s) :
    (NewServer m).mux.handlerFor r.URL.EscapedPath =
      if r.URL.Path = "/health-check" then
        (NewServer m).logMiddleware (NewServer m).healthCheckHandler
      else if r.URL.Path = "/hello-world" then
        (NewServer m).logMiddleware (NewServer m).helloWorldHandler
      else NotFound.toHandler := by
  have hun := EscapedPath_unescape r.URL
  have k1 := requestSegments_single r.URL.EscapedPath.data r.URL.Path.data "health-check".data
    hroot hun (by decide) (by decide) (by decide)
  have k2 := requestSegments_single r.URL.EscapedPath.data r.URL.Path.data "hello-world".data
    hroot hun (by decide) (by decide) (by decide)
  have e1 : r.URL.Path.data = '/' :: "health-check".data ↔ r.URL.Path = "/health-check" :=
    ⟨fun h => String.ext h, fun h => by rw [h]⟩
  have e2 : r.URL.Path.data = '/' :: "hello-world".data ↔ r.URL.Path = "/hello-world" :=
    ⟨fun h => String.ext h, fun h => by rw [h]⟩
  rw [NewServer_handlerFor]
  by_cases h1 : r.URL.Path = "/health-check"
  · rw [if_pos (k1.mpr (e1.mpr h1)), if_pos h1]
  · have h1b : ¬ requestSegments r.URL.EscapedPath.data = [bytes "health-check".data] :=
      fun h => h1 (e1.mp (k1.mp h))
    rw [if_neg h1b, if_neg h1]
    by_cases h2 : r.URL.Path = "/hello-world"
    · rw [if_pos (k2.mpr (e2.mpr h2)), if_pos h2]
    · have h2b : ¬ requestSegments r.URL.EscapedPath.data = [bytes "hello-world".data] :=
        fun h => h2 (e2.mp (k2.mp h))
      rw [if_neg h2b, if_neg h2]

theorem canonical_rooted (p : String) (h : cleanPath p = p) :
    p.data = [] ∨ ∃ s, p.data = '/' :: s := by
  obtain ⟨s, hs⟩ := cleanPath_rooted p
  rw [h] at hs
  exact Or.inr ⟨s, hs⟩

theorem NotFound_on_recorder (lib : Lib) (r : Request) (elapsed : String) (w : ResponseRecorder)
    (log : List String) (hw : w.wroteHeader = false) :
    ∃ w1, NotFound.toHandler _ (ResponseRecorder.writer lib) r elapsed (w, log) = some (w1, log) ∧
      w1.Result.StatusCode = 404 := by
  simp [HandlerFunc.toHandler, NotFound, Error, Prog.run, ResponseRecorder.writer,
    ResponseRecorder.WriteHeader, ResponseRecorder.Write, ResponseRecorder.writeHeader, hw,
    ResponseRecorder.Result]

/-- C7, as the code has it. On a request whose `RequestURI` is not `*` and whose escaped path
(`r.URL.EscapedPath()`) is in canonical form, path cleaning leaving it unchanged, or whose method
is `CONNECT` and whose escaped path is empty or begins with a slash: the handler of
`NewServer(m).Handler()` hands the request to the health-check handler when the path is exactly
`/health-check`, to the greeting handler when it is exactly `/hello-world`, each wrapped by
`logMiddleware`, and answers 404 for any other path, whatever the method. -/
theorem Handler_dispatch (lib : Lib) (m : String) (r : Request) (elapsed : String)
    (huri : r.RequestURI ≠ "*")
    (hform : cleanPath r.URL.EscapedPath = r.URL.EscapedPath ∨
      (r.Method = "CONNECT" ∧
        (r.URL.EscapedPath = "" ∨ r.URL.EscapedPath.data.head? = some '/'))) :
    (r.URL.Path = "/health-check" → ∀ (σ : Type) (W : ResponseWriter σ) st,
      (NewServer m).Handler lib σ W r elapsed st =
        (NewServer m).logMiddleware (NewServer m).healthCheckHandler σ W r elapsed st) ∧
    (r.URL.Path = "/hello-world" → ∀ (σ : Type) (W : ResponseWriter σ) st,
      (NewServer m).Handler lib σ W r elapsed st =
        (NewServer m).logMiddleware (NewServer m).helloWorldHandler σ W r elapsed st) ∧
    (r.URL.Path ≠ "/health-check" → r.URL.Path ≠ "/hello-world" →
      ∀ (w : ResponseRecorder) (log : List String), w.wroteHeader = false →
        ∃ w1, (NewServer m).Handler lib _ (ResponseRecorder.writer lib) r elapsed (w, log)
            = some (w1, log) ∧ w1.Result.StatusCode = 404) := by
  have hroot : r.URL.EscapedPath.data = [] ∨ ∃ s, r.URL.EscapedPath.data = '/' :: s := by
    rcases hform with hc | ⟨_, he | he⟩
    · exact canonical_rooted _ hc
    · left; rw [he]
    · right
      cases hd : r.URL.EscapedPath.data with
      | nil => rw [hd] at he; simp at he
      | cons c s =>
        rw [hd] at he
        simp only [List.head?_cons, Option.some.injEq] at he
        exact ⟨s, by rw [he]⟩
  have hH : ServeMux.findHandler lib (NewServer m).mux r
      = (NewServer m).mux.handlerFor r.URL.EscapedPath := by
    by_cases hm : r.Method = "CONNECT"
    · simp only [ServeMux.findHandler, if_pos hm]
    · have hc : cleanPath r.URL.EscapedPath = r.URL.EscapedPath := by
        rcases hform with hc | ⟨hm2, _⟩
        · exact hc
        · exact absurd hm2 hm
      simp only [ServeMux.findHandler, if_neg hm, hc, ne_eq, not_true_eq_false, if_false]
  have hne : ¬ ("/hello-world" : String) = "/health-check" := by decide
  refine ⟨?_, ?_, ?_⟩
  · intro hp σ W st
    simp only [Server.Handler, ServeMux.ServeHTTP, if_neg huri, hH,
      NewServer_handlerFor_escaped m r hroot, if_pos hp]
  · intro hp σ W st
    simp only [Server.Handler, ServeMux.ServeHTTP, if_neg huri, hH,
      NewServer_handlerFor_escaped m r hroot, hp, if_neg hne, if_true]
  · intro h1 h2 w log hw
    simp only [Server.Handler, ServeMux.ServeHTTP, if_neg huri, hH,
      NewServer_handlerFor_escaped m r hroot, if_neg h1, if_neg h2]
    exact NotFound_on_recorder lib r elapsed w log hw

/-- C7, on the unregistered path of the test suite, `GET /invalid-route`, and on the request
target `/%2Fhealth-check`, whose path `//health-check` has a canonical escaped form: both are
answered 404. -/
theorem Handler_dispatch_witness :
    (NewRequest "GET" "/invalid-route").RequestURI ≠ "*" ∧
    cleanPath (NewRequest "GET" "/invalid-route").URL.EscapedPath
      = (NewRequest "GET" "/invalid-route").URL.EscapedPath ∧
    (∃ w1, (NewServer "Test Hello Message").Handler Lib.sample _
        (ResponseRecorder.writer Lib.sample)
        (NewRequest "GET" "/invalid-route") "1ms" (NewRecorder, []) = some (w1, []) ∧
      w1.Result.StatusCode = 404) ∧
    (∃ w1, (NewServer "Test Hello Message").Handler Lib.sample _
        (ResponseRecorder.writer Lib.sample)
        { NewRequest "GET" "/%2Fhealth-check" with
            URL := ⟨"//health-check", "/%2Fhealth-check", ""⟩ }
        "1ms" (NewRecorder, []) = some (w1, []) ∧
      w1.Result.StatusCode = 404) :=
  ⟨by decide, by decide,
    (Handler_dispatch Lib.sample "Test Hello Message" (NewRequest "GET" "/invalid-route") "1ms"
      (by decide) (Or.inl (by decide))).2.2 (by decide) (by decide) NewRecorder [] rfl,
    (Handler_dispatch Lib.sample "Test Hello Message"
      { NewRequest "GET" "/%2Fhealth-check" with
          URL := ⟨"//health-check", "/%2Fhealth-check", ""⟩ }
      "1ms" (by decide) (Or.inl (by decide))).2.2 (by decide) (by decide) NewRecorder [] rfl⟩

/-- C7 as stated fails: the path `//health-check` is neither `/health-check` nor `/hello-world`,
and a `GET` request for it is not answered 404 but redirected to the cleaned path, with status
307 by the newer releases of the library and 301 by the older ones. -/
theorem Handler_unclean_path_redirects :
    (NewRequest "GET" "//health-check").URL.Path ≠ "/health-check" ∧
    (NewRequest "GET" "//health-check").URL.Path ≠ "/hello-world" ∧
    ((NewServer "Test Hello Message").Handler Lib.sample _ (ResponseRecorder.writer Lib.sample)
        (NewRequest "GET" "//health-check") "1ms" (NewRecorder, [])).map
        (fun st => st.1.Result.StatusCode) = some 307 ∧
    ((NewServer "Test Hello Message").Handler Lib.sampleOlder _
        (ResponseRecorder.writer Lib.sampleOlder)
        (NewRequest "GET" "//health-check") "1ms" (NewRecorder, [])).map
        (fun st => st.1.Result.StatusCode) = some 301 := by
  decide

/-! ## The logging middleware: claims C8 to C10 -/

/-- What the wrapper records: after a run that returns, `statusCode` is the code of the last
`WriteHeader` call made through the wrapper, or the value it started with when there was none. -/
theorem statusCode_after_run {σ : Type} (W : ResponseWriter σ) (p : Prog) :
    ∀ (rw : responseWriter σ) (log : List String) (rw1 : responseWriter σ) (log1 : List String),
      p.run (responseWriter.writer W) (rw, log) = some (rw1, log1) →
      rw1.statusCode = ((p.headerCalls (responseWriter.writer W) rw).getLast?).getD rw.statusCode := by
  induction p with
  | ret =>
    intro rw log rw1 log1 h
    simp only [Prog.run, Option.some.injEq, Prod.mk.injEq] at h
    simp [Prog.headerCalls, h.1]
  | panic =>
    intro rw log rw1 log1 h
    simp [Prog.run] at h
  | getHeader k ih =>
    intro rw log rw1 log1 h
    simp only [Prog.run] at h
    simpa [Prog.headerCalls] using ih _ rw log rw1 log1 h
  | setHeader f k ih =>
    intro rw log rw1 log1 h
    simp only [Prog.run] at h
    have := ih _ log rw1 log1 h
    simpa [Prog.headerCalls, responseWriter.writer] using this
  | writeHeader code k ih =>
    intro rw log rw1 log1 h
    simp only [Prog.run] at h
    cases hw : (responseWriter.writer W).writeHeader rw code with
    | none => rw [hw] at h; simp at h
    | some rw2 =>
      rw [hw] at h
      have h2 := ih rw2 log rw1 log1 h
      have hc : rw2.statusCode = code := by
        simp only [responseWriter.writer, responseWriter.WriteHeader, Option.map_eq_some'] at hw
        obtain ⟨w2, _, e⟩ := hw
        rw [← e]
      simp only [Prog.headerCalls, hw]
      rw [h2, hc]
      cases hl : (k.headerCalls (responseWriter.writer W) rw2) with
      | nil => simp
      | cons a t =>
        rw [List.getLast?_eq_getLast _ (List.cons_ne_nil a t),
          List.getLast?_eq_getLast _ (List.cons_ne_nil code (a :: t))]
        simp
  | write b k ih =>
    intro rw log rw1 log1 h
    simp only [Prog.run] at h
    cases hw : (responseWriter.writer W).write rw b with
    | none => rw [hw] at h; simp at h
    | some res =>
      obtain ⟨rw2, n⟩ := res
      rw [hw] at h
      have h2 := ih n rw2 log rw1 log1 h
      have hc : rw2.statusCode = rw.statusCode := by
        simp only [responseWriter.writer, Option.map_eq_some'] at hw
        obtain ⟨res2, _, e⟩ := hw
        injection e with e1 _
        rw [← e1]
      simp only [Prog.headerCalls, hw]
      rw [h2, hc]
  | flush yes no _ ihno =>
    intro rw log rw1 log1 h
    have hf : (responseWriter.writer W).flush = none := rfl
    simp only [Prog.run, hf] at h
    have := ihno rw log rw1 log1 h
    simpa [Prog.headerCalls, hf] using this
  | logf msg k ih =>
    intro rw log rw1 log1 h
    simp only [Prog.run] at h
    simpa [Prog.headerCalls] using ih rw _ rw1 log1 h

/-- A body without type assertions does to the embedded writer and to the log exactly what it
does when it is handed that writer directly. -/
theorem run_through_wrapper {σ : Type} (W : ResponseWriter σ) (p : Prog) :
    p.plain → ∀ (rw : responseWriter σ) (log : List String),
      (p.run (responseWriter.writer W) (rw, log)).map (fun st => (st.1.ResponseWriter, st.2))
        = p.run W (rw.ResponseWriter, log) := by
  induction p with
  | ret => intro _ rw log; simp [Prog.run]
  | panic => intro _ rw log; simp [Prog.run]
  | getHeader k ih =>
    intro hp rw log
    simp only [Prog.run]
    exact ih _ (hp _) rw log
  | setHeader f k ih =>
    intro hp rw log
    simp only [Prog.run]
    exact ih hp _ log
  | writeHeader code k ih =>
    intro hp rw log
    simp only [Prog.run, responseWriter.writer, responseWriter.WriteHeader]
    cases hw : W.writeHeader rw.ResponseWriter code with
    | none => simp
    | some w2 =>
      simp only [Option.map_some']
      exact ih hp _ log
  | write b k ih =>
    intro hp rw log
    simp only [Prog.run, responseWriter.writer]
    cases hw : W.write rw.ResponseWriter b with
    | none => simp
    | some res =>
      simp only [Option.map_some']
      exact ih _ (hp _) _ log
  | flush yes no _ _ => intro hp; exact absurd hp (by simp [Prog.plain])
  | logf msg k ih =>
    intro hp rw log
    simp only [Prog.run]
    exact ih hp rw _

/-- C8. Whenever the downstream handler returns, the handler made by `logMiddleware` returns
too, leaves the writer as the downstream handler left it, and adds exactly one line to the log,
after whatever the downstream handler logged: method, space, URL path, ` - `, the captured status
code (the code the handler last passed to `WriteHeader` through the wrapped writer, 200 when it
passed none), ` - `, `getClientIP` of the request, ` - `, the duration. -/
theorem logMiddleware_logs_once {σ : Type} (s : Server) (next : HandlerFunc)
    (W : ResponseWriter σ) (r : Request) (elapsed : String) (w : σ) (log : List String)
    (wrapped : responseWriter σ) (log1 : List String)
    (hret : (next r).run (responseWriter.writer W) (⟨w, 200⟩, log) = some (wrapped, log1)) :
    ∃ clientIP, getClientIP r = some clientIP ∧
      s.logMiddleware next σ W r elapsed (w, log) =
        some (wrapped.ResponseWriter,
          log1 ++ [r.Method ++ " " ++ r.URL.Path ++ " - " ++
            fmt.decimal
              ((((next r).headerCalls (responseWriter.writer W) ⟨w, 200⟩).getLast?).getD 200)
            ++ " - " ++ clientIP ++ " - " ++ elapsed]) := by
  obtain ⟨ip, hip⟩ := getClientIP_total r
  have hsc := statusCode_after_run W (next r) ⟨w, 200⟩ log wrapped log1 hret
  refine ⟨ip, hip, ?_⟩
  simp only [Server.logMiddleware, HandlerFunc.toHandler, hret, hip, logLine, hsc]

/-- C8, on `mockHandler` and the `GET /test` of `TestLogMiddleware`, where the log holds the one
line `GET /test - 200 - 192.0.2.1 - 1ms`, and on a `POST` to the greeting handler, where the
line carries the 405 that the handler wrote. -/
theorem logMiddleware_logs_once_witness :
    ((NewServer "").logMiddleware mockHandler _ (ResponseRecorder.writer Lib.sample)
        (NewRequest "GET" "/test") "1ms" (NewRecorder, [])).map (fun st => st.2)
      = some ["GET /test - 200 - 192.0.2.1 - 1ms"] ∧
    ((NewServer "Hello").logMiddleware (NewServer "Hello").helloWorldHandler _
        (ResponseRecorder.writer Lib.sample)
        (NewRequest "POST" "/hello-world") "1ms" (NewRecorder, [])).map (fun st => st.2)
      = some ["POST /hello-world - 405 - 192.0.2.1 - 1ms"] := by
  constructor
  · obtain ⟨ip, hip, h⟩ := logMiddleware_logs_once (NewServer "") mockHandler
      (ResponseRecorder.writer Lib.sample) (NewRequest "GET" "/test") "1ms" NewRecorder []
      _ _ rfl
    have hip2 : getClientIP (NewRequest "GET" "/test") = some "192.0.2.1" := by decide
    rw [hip2] at hip
    injection hip with hip
    subst hip
    rw [h]
    decide
  · obtain ⟨ip, hip, h⟩ := logMiddleware_logs_once (NewServer "Hello")
      (NewServer "Hello").helloWorldHandler
      (ResponseRecorder.writer Lib.sample) (NewRequest "POST" "/hello-world") "1ms" NewRecorder []
      _ _ rfl
    have hip2 : getClientIP (NewRequest "POST" "/hello-world") = some "192.0.2.1" := by decide
    rw [hip2] at hip
    injection hip with hip
    subst hip
    rw [h]
    decide

/-- C9, as the code has it. The status code in the line that `logMiddleware` logs is the code
of the last `WriteHeader` call the downstream handler made through the wrapped writer, and 200
when it made none; on a request that is not a `GET` the line of either route has 405. -/
theorem logMiddleware_logs_last_code {σ : Type} (s : Server) (next : HandlerFunc)
    (W : ResponseWriter σ) (r : Request) (elapsed : String) (w : σ) (log : List String)
    (w1 : σ) (log1 : List String)
    (h : s.logMiddleware next σ W r elapsed (w, log) = some (w1, log1)) :
    (∃ log0 clientIP, getClientIP r = some clientIP ∧
      log1 = log0 ++ [logLine r.Method r.URL.Path
        ((((next r).headerCalls (responseWriter.writer W) ⟨w, 200⟩).getLast?).getD 200)
        clientIP elapsed]) ∧
    (r.Method ≠ "GET" → next = s.healthCheckHandler ∨ next = s.helloWorldHandler →
      ∃ clientIP, getClientIP r = some clientIP ∧
        log1 = log ++ [logLine r.Method r.URL.Path 405 clientIP elapsed]) := by
  obtain ⟨ip, hip⟩ := getClientIP_total r
  simp only [Server.logMiddleware, HandlerFunc.toHandler] at h
  cases hrun : (next r).run (responseWriter.writer W) (⟨w, 200⟩, log) with
  | none => rw [hrun] at h; simp at h
  | some res =>
    obtain ⟨rw1, l1⟩ := res
    rw [hrun] at h
    simp only [hip, Option.some.injEq, Prod.mk.injEq] at h
    have hsc := statusCode_after_run W (next r) ⟨w, 200⟩ log rw1 l1 hrun
    refine ⟨⟨l1, ip, hip, ?_⟩, ?_⟩
    · rw [← h.2, hsc]
    · intro hm hn
      have hm2 : r.Method ≠ MethodGet := hm
      have hprog : next r = .writeHeader 405 .ret := by
        rcases hn with hn | hn <;> subst hn
        · simp [Server.healthCheckHandler, hm2, StatusMethodNotAllowed]
        · simp [Server.helloWorldHandler, hm2, StatusMethodNotAllowed]
      rw [hprog] at hrun
      simp only [Prog.run] at hrun
      cases hw : (responseWriter.writer W).writeHeader ⟨w, 200⟩ 405 with
      | none => rw [hw] at hrun; simp at hrun
      | some rw2 =>
        rw [hw] at hrun
        simp only [Option.some.injEq, Prod.mk.injEq] at hrun
        have hc : rw2.statusCode = 405 := by
          simp only [responseWriter.writer, responseWriter.WriteHeader, Option.map_eq_some'] at hw
          obtain ⟨w2, _, e⟩ := hw
          rw [← e]
        refine ⟨ip, hip, ?_⟩
        rw [← h.2, ← hrun.2, ← hrun.1, hc]

/-- C9, on a `POST` to the health-check route: the line logged has status 405. -/
theorem logMiddleware_logs_last_code_witness :
    ((NewServer "").logMiddleware (NewServer "").healthCheckHandler _
        (ResponseRecorder.writer Lib.sample) (NewRequest "POST" "/health-check") "1ms"
        (NewRecorder, [])).map (fun st => st.2)
      = some ["POST /health-check - 405 - 192.0.2.1 - 1ms"] := by
  have hsome : ((NewServer "").logMiddleware (NewServer "").healthCheckHandler _
        (ResponseRecorder.writer Lib.sample) (NewRequest "POST" "/health-check") "1ms"
        (NewRecorder, [])).isSome = true := by decide
  cases hrun : (NewServer "").logMiddleware (NewServer "").healthCheckHandler _
        (ResponseRecorder.writer Lib.sample) (NewRequest "POST" "/health-check") "1ms"
        (NewRecorder, []) with
  | none => rw [hrun] at hsome; exact absurd hsome (by decide)
  | some res =>
    obtain ⟨w1, log1⟩ := res
    obtain ⟨ip, hip, hlog⟩ := (logMiddleware_logs_last_code (NewServer "")
      (NewServer "").healthCheckHandler (ResponseRecorder.writer Lib.sample)
      (NewRequest "POST" "/health-check") "1ms" NewRecorder [] w1 log1 hrun).2
      (by decide) (Or.inl rfl)
    have hip2 : getClientIP (NewRequest "POST" "/health-check") = some "192.0.2.1" := by decide
    rw [hip2] at hip
    injection hip with hip
    subst hip
    simp only [Option.map_some', hlog]
    decide

/-- C9 as stated fails: `twoCodesHandler` writes 404 first and 500 after it; the response has
status 404, the line logged has 500. -/
theorem logMiddleware_logs_later_code :
    (twoCodesHandler (NewRequest "GET" "/test")).headerCalls
        (responseWriter.writer (ResponseRecorder.writer Lib.sample)) ⟨NewRecorder, 200⟩
      = [404, 500] ∧
    ((NewServer "").logMiddleware twoCodesHandler _ (ResponseRecorder.writer Lib.sample)
        (NewRequest "GET" "/test") "1ms" (NewRecorder, [])).map
        (fun st => (st.1.Result.StatusCode, st.2))
      = some (404, ["GET /test - 500 - 192.0.2.1 - 1ms"]) := by
  decide

/-- C10, as the code has it. For a downstream handler that uses the writer through `Header`,
`Write` and `WriteHeader` only, the handler made by `logMiddleware` panics exactly when the
downstream handler does, and otherwise leaves the writer it was handed in the state the
downstream handler leaves it in when called directly, the log holding one more line. -/
theorem logMiddleware_same_response {σ : Type} (s : Server) (next : HandlerFunc)
    (W : ResponseWriter σ) (r : Request) (elapsed : String) (w : σ) (log : List String)
    (hp : (next r).plain) :
    (next.toHandler σ W r elapsed (w, log) = none →
      s.logMiddleware next σ W r elapsed (w, log) = none) ∧
    (∀ w1 log1, next.toHandler σ W r elapsed (w, log) = some (w1, log1) →
      ∃ line, s.logMiddleware next σ W r elapsed (w, log) = some (w1, log1 ++ [line])) := by
  have key := run_through_wrapper W (next r) hp ⟨w, 200⟩ log
  obtain ⟨ip, hip⟩ := getClientIP_total r
  simp only [HandlerFunc.toHandler, Server.logMiddleware]
  constructor
  · intro hn
    rw [hn] at key
    cases hrun : (next r).run (responseWriter.writer W) (⟨w, 200⟩, log) with
    | none => rfl
    | some res => rw [hrun] at key; simp at key
  · intro w1 log1 hs
    rw [hs] at key
    cases hrun : (next r).run (responseWriter.writer W) (⟨w, 200⟩, log) with
    | none => rw [hrun] at key; simp at key
    | some res =>
      obtain ⟨rw1, l1⟩ := res
      rw [hrun] at key
      simp only [Option.map_some', Option.some.injEq, Prod.mk.injEq] at key
      simp only [hip, key.1, key.2]
      exact ⟨_, rfl⟩

/-- C10, on `mockHandler`: called directly it leaves status 200 and the body `mock response`, and
so does the handler that `logMiddleware` makes of it. -/
theorem logMiddleware_same_response_witness :
    (mockHandler (NewRequest "GET" "/test")).plain ∧
    (mockHandler.toHandler _ (ResponseRecorder.writer Lib.sample) (NewRequest "GET" "/test")
        "1ms" (NewRecorder, [])).map (fun st => (st.1.Result.StatusCode, st.1.Result.Body))
      = some (200, "mock response") ∧
    ((NewServer "").logMiddleware mockHandler _ (ResponseRecorder.writer Lib.sample)
        (NewRequest "GET" "/test") "1ms" (NewRecorder, [])).map
        (fun st => (st.1.Result.StatusCode, st.1.Result.Body))
      = some (200, "mock response") := by
  have hp : (mockHandler (NewRequest "GET" "/test")).plain := fun _ => trivial
  refine ⟨hp, by decide, ?_⟩
  have hsome : (mockHandler.toHandler _ (ResponseRecorder.writer Lib.sample)
      (NewRequest "GET" "/test") "1ms" (NewRecorder, [])).isSome = true := by decide
  cases hrun : mockHandler.toHandler _ (ResponseRecorder.writer Lib.sample)
      (NewRequest "GET" "/test") "1ms" (NewRecorder, []) with
  | none => rw [hrun] at hsome; exact absurd hsome (by decide)
  | some res =>
    obtain ⟨w1, log1⟩ := res
    have hst : (w1.Result.StatusCode, w1.Result.Body) = (200, "mock response") := by
      have hd : (mockHandler.toHandler _ (ResponseRecorder.writer Lib.sample)
        (NewRequest "GET" "/test") "1ms" (NewRecorder, [])).map
        (fun st => (st.1.Result.StatusCode, st.1.Result.Body)) = some (200, "mock response") := by
        decide
      rw [hrun] at hd
      simpa using hd
    obtain ⟨line, hline⟩ := (logMiddleware_same_response (NewServer "") mockHandler
      (ResponseRecorder.writer Lib.sample) (NewRequest "GET" "/test") "1ms" NewRecorder [] hp).2
      w1 log1 hrun
    rw [hline]
    simpa using hst

/-- C10 as stated fails: called directly on a recorder `flushingHandler` flushes, which sends
status 200, so its 404 comes too late; behind `logMiddleware` the writer it is handed has no
`Flush`, and the response has status 404. -/
theorem logMiddleware_hides_Flusher :
    (flushingHandler.toHandler _ (ResponseRecorder.writer Lib.sample) (NewRequest "GET" "/test")
        "1ms" (NewRecorder, [])).map (fun st => st.1.Result.StatusCode) = some 200 ∧
    ((NewServer "").logMiddleware flushingHandler _ (ResponseRecorder.writer Lib.sample)
        (NewRequest "GET" "/test") "1ms" (NewRecorder, [])).map
        (fun st => st.1.Result.StatusCode) = some 404 := by
  decide

/-! ## Two servers with different messages: claim C11 -/

theorem append_newline_injective (b m1 m2 : String) (h : b ++ (m1 ++ "\n") = b ++ (m2 ++ "\n")) :
    m1 = m2 := by
  have hd := congrArg String.data h
  simp only [String.data_append] at hd
  have h2 := List.append_cancel_left hd
  have h3 := List.append_cancel_right h2
  exact String.ext h3

/-- Unless the greeting handler is matched on a `GET`, the match of the routing tree does the
same to every writer and log whatever the message is. -/
theorem handlerFor_message_free (m1 m2 path : String) (r : Request) (elapsed : String)
    (h : r.Method ≠ "GET" ∨ requestSegments path.data ≠ [bytes "hello-world".data])
    (σ : Type) (W : ResponseWriter σ) (st : σ × List String) :
    (NewServer m1).mux.handlerFor path σ W r elapsed st
      = (NewServer m2).mux.handlerFor path σ W r elapsed st := by
  rw [NewServer_handlerFor, NewServer_handlerFor]
  by_cases h1 : requestSegments path.data = [bytes "health-check".data]
  · simp only [if_pos h1]; rfl
  · by_cases h2 : requestSegments path.data = [bytes "hello-world".data]
    · have hm : r.Method ≠ MethodGet := by
        rcases h with h | h
        · exact h
        · exact absurd h2 h
      simp only [if_neg h1, if_pos h2, Server.logMiddleware, HandlerFunc.toHandler,
        Server.helloWorldHandler, if_pos hm]
    · simp only [if_neg h1, if_neg h2]

/-- Apart from a `GET` for `/hello-world` whose escaped path is in canonical form, the handler
of `NewServer(m)` does the same to every writer and log whatever `m` is. -/
theorem Handler_message_free (lib : Lib) (m1 m2 : String) (r : Request) (elapsed : String)
    (h : r.RequestURI = "*" ∨ r.Method ≠ "GET" ∨ r.URL.Path ≠ "/hello-world" ∨
      cleanPath r.URL.EscapedPath ≠ r.URL.EscapedPath)
    (σ : Type) (W : ResponseWriter σ) (st : σ × List String) :
    (NewServer m1).Handler lib σ W r elapsed st = (NewServer m2).Handler lib σ W r elapsed st := by
  by_cases huri : r.RequestURI = "*"
  · simp only [Server.Handler, ServeMux.ServeHTTP, if_pos huri]
  · simp only [Server.Handler, ServeMux.ServeHTTP, if_neg huri, ServeMux.findHandler]
    by_cases hc : r.Method = "CONNECT"
    · simp only [if_pos hc]
      have hm : r.Method ≠ "GET" := by rw [hc]; decide
      exact handlerFor_message_free m1 m2 _ r elapsed (Or.inl hm) σ W st
    · simp only [if_neg hc]
      by_cases hp : cleanPath r.URL.EscapedPath ≠ r.URL.EscapedPath
      · simp only [if_pos hp]
      · simp only [if_neg hp]
        have hcan : cleanPath r.URL.EscapedPath = r.URL.EscapedPath := by
          by_contra hne; exact hp hne
        rw [hcan]
        apply handlerFor_message_free m1 m2 _ r elapsed
        rcases h with h | h | h | h
        · exact absurd h huri
        · exact Or.inl h
        · right
          intro hseg
          have k := requestSegments_single r.URL.EscapedPath.data r.URL.Path.data
            "hello-world".data (canonical_rooted _ hcan) (EscapedPath_unescape r.URL)
            (by decide) (by decide) (by decide)
          exact h (String.ext (k.mp hseg))
        · exact absurd h hp

/-- On a `GET` for `/hello-world` whose escaped path is in canonical form the handler of
`NewServer(m)` leaves a recorder in a state that depends on `m` through the body alone, and a
log that does not depend on `m`. -/
theorem Handler_greeting_on_recorder (lib : Lib) (r : Request) (elapsed : String)
    (w : ResponseRecorder) (log : List String)
    (huri : r.RequestURI ≠ "*") (hm : r.Method = "GET") (hp : r.URL.Path = "/hello-world")
    (hcan : cleanPath r.URL.EscapedPath = r.URL.EscapedPath) :
    ∃ (base : ResponseRecorder) (log1 : List String), ∀ m : String,
      (NewServer m).Handler lib _ (ResponseRecorder.writer lib) r elapsed (w, log)
        = some ({ base with Body := w.Body ++ (m ++ "\n") }, log1) := by
  obtain ⟨ip, hip⟩ := getClientIP_total r
  have hc : ¬ r.Method = "CONNECT" := by rw [hm]; decide
  have hm2 : ¬ r.Method ≠ MethodGet := fun h => h hm
  have hne : ¬ ("/hello-world" : String) = "/health-check" := by decide
  have hH : ∀ m, (NewServer m).Handler lib _ (ResponseRecorder.writer lib) r elapsed (w, log)
      = (NewServer m).logMiddleware (NewServer m).helloWorldHandler _
          (ResponseRecorder.writer lib) r elapsed (w, log) := by
    intro m
    simp only [Server.Handler, ServeMux.ServeHTTP, if_neg huri, ServeMux.findHandler, if_neg hc,
      hcan, ne_eq, not_true_eq_false, if_false,
      NewServer_handlerFor_escaped m r (canonical_rooted _ hcan), hp, if_neg hne, if_true]
  by_cases hw : w.wroteHeader = true
  · refine ⟨{ w with HeaderMap := w.HeaderMap.Set "Content-Type" "text/plain" },
      log ++ [logLine r.Method r.URL.Path 200 ip elapsed], ?_⟩
    intro m
    rw [hH]
    simp [Server.logMiddleware, HandlerFunc.toHandler, Server.helloWorldHandler, hm2, Prog.run,
      responseWriter.writer, responseWriter.WriteHeader, ResponseRecorder.writer,
      ResponseRecorder.WriteHeader, ResponseRecorder.Write, ResponseRecorder.writeHeader, hw,
      StatusOK, hip, NewServer, Server.routes]
  · have hw2 : w.wroteHeader = false := by simpa using hw
    refine ⟨{ w with
                Code := 200
                wroteHeader := true
                HeaderMap := w.HeaderMap.Set "Content-Type" "text/plain"
                snapHeader := some (w.HeaderMap.Set "Content-Type" "text/plain") },
      log ++ [logLine r.Method r.URL.Path 200 ip elapsed], ?_⟩
    intro m
    rw [hH]
    simp [Server.logMiddleware, HandlerFunc.toHandler, Server.helloWorldHandler, hm2, Prog.run,
      responseWriter.writer, responseWriter.WriteHeader, ResponseRecorder.writer,
      ResponseRecorder.WriteHeader, ResponseRecorder.Write, ResponseRecorder.writeHeader, hw2,
      StatusOK, hip, NewServer, Server.routes]

/-- C11. For two servers built with the messages `m1` and `m2` and every request: on the path
`/health-check`, on every method other than `GET`, on every path that is not registered, on the
request target `*`, and on an escaped path that is not in canonical form, the two handlers do
the same to every writer and log; on a `GET` for `/hello-world` in canonical form they leave a
recorder in states that agree in everything (status, headers, log) but the body, which is the
message followed by a newline, so the two bodies differ when the messages do. -/
theorem message_changes_only_greeting_body (lib : Lib) (m1 m2 : String) (r : Request)
    (elapsed : String) :
    (r.URL.Path = "/health-check" → ∀ (σ : Type) (W : ResponseWriter σ) st,
      (NewServer m1).Handler lib σ W r elapsed st = (NewServer m2).Handler lib σ W r elapsed st) ∧
    (r.Method ≠ "GET" → ∀ (σ : Type) (W : ResponseWriter σ) st,
      (NewServer m1).Handler lib σ W r elapsed st = (NewServer m2).Handler lib σ W r elapsed st) ∧
    (r.URL.Path ≠ "/health-check" → r.URL.Path ≠ "/hello-world" →
      ∀ (σ : Type) (W : ResponseWriter σ) st,
      (NewServer m1).Handler lib σ W r elapsed st = (NewServer m2).Handler lib σ W r elapsed st) ∧
    (r.RequestURI = "*" → ∀ (σ : Type) (W : ResponseWriter σ) st,
      (NewServer m1).Handler lib σ W r elapsed st = (NewServer m2).Handler lib σ W r elapsed st) ∧
    (cleanPath r.URL.EscapedPath ≠ r.URL.EscapedPath → ∀ (σ : Type) (W : ResponseWriter σ) st,
      (NewServer m1).Handler lib σ W r elapsed st = (NewServer m2).Handler lib σ W r elapsed st) ∧
    (r.RequestURI ≠ "*" → r.Method = "GET" → r.URL.Path = "/hello-world" →
      cleanPath r.URL.EscapedPath = r.URL.EscapedPath →
      ∀ (w : ResponseRecorder) (log : List String), ∃ w1 log1,
        (NewServer m1).Handler lib _ (ResponseRecorder.writer lib) r elapsed (w, log)
          = some (w1, log1) ∧
        (NewServer m2).Handler lib _ (ResponseRecorder.writer lib) r elapsed (w, log)
          = some ({ w1 with Body := w.Body ++ (m2 ++ "\n") }, log1) ∧
        w1.Body = w.Body ++ (m1 ++ "\n") ∧
        (m1 ≠ m2 → w1.Body ≠ w.Body ++ (m2 ++ "\n"))) := by
  refine ⟨?_, ?_, ?_, ?_, ?_, ?_⟩
  · intro hp σ W st
    have hne : r.URL.Path ≠ "/hello-world" := by rw [hp]; decide
    exact Handler_message_free lib m1 m2 r elapsed (Or.inr (Or.inr (Or.inl hne))) σ W st
  · intro hm σ W st
    exact Handler_message_free lib m1 m2 r elapsed (Or.inr (Or.inl hm)) σ W st
  · intro _ hne σ W st
    exact Handler_message_free lib m1 m2 r elapsed (Or.inr (Or.inr (Or.inl hne))) σ W st
  · intro huri σ W st
    exact Handler_message_free lib m1 m2 r elapsed (Or.inl huri) σ W st
  · intro hcl σ W st
    exact Handler_message_free lib m1 m2 r elapsed (Or.inr (Or.inr (Or.inr hcl))) σ W st
  · intro huri hm hp hcan w log
    obtain ⟨base, log1, hb⟩ := Handler_greeting_on_recorder lib r elapsed w log huri hm hp hcan
    refine ⟨{ base with Body := w.Body ++ (m1 ++ "\n") }, log1, hb m1, hb m2, rfl, ?_⟩
    intro hne heq
    exact hne (append_newline_injective w.Body m1 m2 heq)

/-- C11, on the two messages of the test suite: `GET /health-check` gives the same status,
content type and body under both, `GET /hello-world` the same status and content type and the
bodies `Hello, World!` and `Custom test message`, each followed by a newline. -/
theorem message_changes_only_greeting_body_witness :
    (((NewServer "Hello, World!").Handler Lib.sample _ (ResponseRecorder.writer Lib.sample)
        (NewRequest "GET" "/health-check") "1ms" (NewRecorder, [])).map
        (fun st => (st.1.Result.StatusCode, st.1.Result.Header.Get "Content-Type",
          st.1.Result.Body))
      = ((NewServer "Custom test message").Handler Lib.sample _
        (ResponseRecorder.writer Lib.sample)
        (NewRequest "GET" "/health-check") "1ms" (NewRecorder, [])).map
        (fun st => (st.1.Result.StatusCode, st.1.Result.Header.Get "Content-Type",
          st.1.Result.Body))) ∧
    ((NewServer "Hello, World!").Handler Lib.sample _ (ResponseRecorder.writer Lib.sample)
        (NewRequest "GET" "/hello-world") "1ms" (NewRecorder, [])).map
        (fun st => (st.1.Result.StatusCode, st.1.Result.Header.Get "Content-Type",
          st.1.Result.Body))
      = some (200, "text/plain", "Hello, World!\n") ∧
    ((NewServer "Custom test message").Handler Lib.sample _ (ResponseRecorder.writer Lib.sample)
        (NewRequest "GET" "/hello-world") "1ms" (NewRecorder, [])).map
        (fun st => (st.1.Result.StatusCode, st.1.Result.Header.Get "Content-Type",
          st.1.Result.Body))
      = some (200, "text/plain", "Custom test message\n") := by
  have h := message_changes_only_greeting_body Lib.sample "Hello, World!" "Custom test message"
  refine ⟨?_, by decide, by decide⟩
  rw [(h (NewRequest "GET" "/health-check") "1ms").1 rfl]

end server
